import Mathlib

/-!
Verification of the multiplayer server core of the Strangerthings repository
(`src/server/GameServer.js`, which contains the `GameServer`, `Room` and
`Player` classes).  The JavaScript is shallowly embedded: JS `Map`s become
association lists that preserve insertion order (JS `Map.set` overwrites an
existing key in place, `Map.delete` removes it), numbers become rationals
(all arithmetic in the relevant handlers is exact: clamping, absolute
differences, comparisons against the 0.01 thresholds), and every socket
emission is recorded as a `(recipient socket id, message)` pair.

JS object aliasing: the same `Player` object is stored in
`GameServer.players` and (once ready) in `Room.players`.  The embedding
keeps both maps and writes every field mutation through to both entries for
the mutated socket id (`GameState.updatePlayerFields`), which coincides
with the aliasing semantics of the source.

Handlers that can throw a `TypeError` in JS (`handleWorldChange` and
`handleChat` dereference `this.rooms.get(roomId)` without a null check)
return `Option`; `none` marks the crash.  The wall-clock fields `joinedAt`
and `lastUpdate` of `Player` are omitted: no claim mentions them and they
influence no branch of the source.
-/

/-- A 3-component position, `{x, y, z}` in the source. -/
structure Position where
  x : ℚ
  y : ℚ
  z : ℚ
deriving DecidableEq, Repr

/-- Server-side `Player` (src/server/GameServer.js, `Player` class).
Fields mirror the constructor: `rotation` is the Y-axis yaw, `worldState`
is the string "normal" or "upsideDown", `animation` a tag string,
`characterId` null until selection, `needsBroadcast` the dirty flag, and
`firebaseUid` the optional identity token attached in `handlePlayerJoin`. -/
structure Player where
  id : String
  username : String
  position : Position
  rotation : ℚ
  worldState : String
  animation : String
  characterId : Option String
  firebaseUid : Option String
  needsBroadcast : Bool
deriving DecidableEq, Repr

/-- Result of `Player.serialize()`: the public state sent over the wire. -/
structure SerPlayer where
  id : String
  username : String
  position : Position
  rotation : ℚ
  worldState : String
  animation : String
  characterId : Option String
deriving DecidableEq, Repr

/-- One element of `Room.getCharacterStates()`. -/
structure CharState where
  id : String
  available : Bool
  takenBy : Option String
deriving DecidableEq, Repr

/-- One entry of the per-tick `players:update` batch built in
`GameServer.broadcastUpdates`. -/
structure UpdateEntry where
  id : String
  position : Position
  rotation : ℚ
  animation : String
deriving DecidableEq, Repr

/-- The outbound server→client messages of src/server/GameServer.js. -/
inductive ServerMsg where
  | errorMsg (message : String)
  | selectCharacterScreen (id : String) (uid : Option String) (characters : List CharState)
  | characterSelected (characterId : String) (characters : List CharState)
  | characterSelectFailed (error : String) (characters : List CharState)
  | characterStateChanged (characters : List CharState)
  | playerJoined (id : String) (uid : Option String) (player : SerPlayer) (players : List SerPlayer)
  | playerSpawned (player : SerPlayer)
  | playerLeft (id : String)
  | playerWorldChanged (worldState : String) (players : List SerPlayer)
  | playerChat (id : String) (username : String) (message : String)
  | playersUpdate (players : List UpdateEntry)
deriving DecidableEq, Repr

/-- An emission: `(recipient socket id, message)`.  `socket.emit` and
`io.to(socketId)` target one socket; `socket.to(roomId)` targets every
member of the socket.io room except the sender; `io.to(roomId)` targets
every member. -/
abbrev Emission := String × ServerMsg

/-- Result object of `Room.selectCharacter`: `{success, error?}`. -/
inductive SelectResult where
  | ok
  | err (error : String)
deriving DecidableEq, Repr

/-- Association list keyed by strings: the embedding of a JS `Map`. -/
abbrev SMap (α : Type) := List (String × α)

/-- The embedding of `Map.get`: value at the first (unique) matching key. -/
def lookupA {α : Type} (l : SMap α) (k : String) : Option α :=
  (l.find? (fun e => e.1 = k)).map (fun e => e.2)

/-- The embedding of `Map.set`: overwrite in place if the key is present
(a JS `Map` keeps the original insertion position), else append. -/
def setA {α : Type} (l : SMap α) (k : String) (v : α) : SMap α :=
  if l.any (fun e => e.1 = k) then
    l.map (fun e => if e.1 = k then (k, v) else e)
  else
    l ++ [(k, v)]

/-- The embedding of `Map.delete`. -/
def eraseA {α : Type} (l : SMap α) (k : String) : SMap α :=
  l.filter (fun e => e.1 ≠ k)

/-- Update the value stored at key `k` in place (the embedding of mutating
a field of the object stored under `k`). -/
def mapValA {α : Type} (l : SMap α) (k : String) (f : α → α) : SMap α :=
  l.map (fun e => if e.1 = k then (e.1, f e.2) else e)

/-- CONFIG.MAX_PLAYERS_PER_ROOM. -/
def MAX_PLAYERS_PER_ROOM : Nat := 30

/-- CONFIG.POSITION_THRESHOLD. -/
def POSITION_THRESHOLD : ℚ := 1/100

/-- CONFIG.ROTATION_THRESHOLD. -/
def ROTATION_THRESHOLD : ℚ := 1/100

/-- CONFIG.WORLD_BOUNDS.minX. -/
def WORLD_MIN_X : ℚ := -500

/-- CONFIG.WORLD_BOUNDS.maxX. -/
def WORLD_MAX_X : ℚ := 500

/-- CONFIG.WORLD_BOUNDS.minZ. -/
def WORLD_MIN_Z : ℚ := -500

/-- CONFIG.WORLD_BOUNDS.maxZ. -/
def WORLD_MAX_Z : ℚ := 500

/-- The fixed character set (`AVAILABLE_CHARACTERS` in GameServer.js). -/
def AVAILABLE_CHARACTERS : List String :=
  ["eleven", "mike", "dustin", "lucas", "will", "max"]

/-- The `Room` class: `players` maps playerId → Player (ready sessions
only; pending sessions are not added until `player:ready`), and
`selectedCharacters` maps characterId → playerId. -/
structure Room where
  id : String
  maxPlayers : Nat
  players : SMap Player
  selectedCharacters : SMap String
deriving DecidableEq, Repr

/-- The `Room` constructor (with `createdAt` omitted). -/
def Room.new (id : String) (maxPlayers : Nat) : Room :=
  { id := id, maxPlayers := maxPlayers, players := [], selectedCharacters := [] }

/-- Room.getCharacterStates(). -/
def Room.getCharacterStates (room : Room) : List CharState :=
  AVAILABLE_CHARACTERS.map (fun charId =>
    { id := charId
      available := !(lookupA room.selectedCharacters charId).isSome
      takenBy := lookupA room.selectedCharacters charId })

/-- Room.releaseCharacter(playerId): delete (and return) the character
entry held by `playerId`, scanning in insertion order. -/
def Room.releaseCharacter (room : Room) (playerId : String) : Room × Option String :=
  match room.selectedCharacters.find? (fun e => e.2 = playerId) with
  | some e =>
      ({ room with selectedCharacters := eraseA room.selectedCharacters e.1 }, some e.1)
  | none => (room, none)

/-- Room.selectCharacter(playerId, characterId). -/
def Room.selectCharacter (room : Room) (playerId characterId : String) :
    Room × SelectResult :=
  if characterId ∉ AVAILABLE_CHARACTERS then
    (room, SelectResult.err "Invalid character")
  else if (lookupA room.selectedCharacters characterId).isSome then
    (room, SelectResult.err "Character already taken")
  else
    let rel := room.releaseCharacter playerId
    ({ rel.1 with
        selectedCharacters := setA rel.1.selectedCharacters characterId playerId },
     SelectResult.ok)

/-- Room.addPlayer(player). -/
def Room.addPlayer (room : Room) (player : Player) : Room :=
  { room with players := setA room.players player.id player }

/-- Room.removePlayer(playerId): releases the character, then deletes the
player entry; returns the released character. -/
def Room.removePlayer (room : Room) (playerId : String) : Room × Option String :=
  let rel := room.releaseCharacter playerId
  ({ rel.1 with players := eraseA rel.1.players playerId }, rel.2)

/-- Room.getPlayersInWorldState(worldState): the values of the player map
in insertion order, filtered to the given partition. -/
def Room.getPlayersInWorldState (room : Room) (worldState : String) : List Player :=
  (room.players.map (fun e => e.2)).filter (fun p => p.worldState = worldState)

/-- Room.isFull(): counts ready sessions only (`players` holds only
sessions that completed the ready transition). -/
def Room.isFull (room : Room) : Bool :=
  room.players.length ≥ room.maxPlayers

/-- The `Player` constructor: spawn position, yaw 0, worldState "normal",
animation "idle", no character, clean dirty flag. -/
def Player.new (id username : String) (position : Position) : Player :=
  { id := id, username := username, position := position, rotation := 0,
    worldState := "normal", animation := "idle", characterId := none,
    firebaseUid := none, needsBroadcast := false }

/-- Player.serialize(). -/
def Player.serialize (p : Player) : SerPlayer :=
  { id := p.id, username := p.username, position := p.position,
    rotation := p.rotation, worldState := p.worldState,
    animation := p.animation, characterId := p.characterId }

/-- Player.hasPositionChanged(newPos, threshold): componentwise strict
comparison of absolute differences. -/
def Player.hasPositionChanged (p : Player) (newPos : Position) (threshold : ℚ) : Bool :=
  |p.position.x - newPos.x| > threshold ∨
  |p.position.y - newPos.y| > threshold ∨
  |p.position.z - newPos.z| > threshold

/-- Player.hasRotationChanged(newRot, threshold). -/
def Player.hasRotationChanged (p : Player) (newRot : ℚ) (threshold : ℚ) : Bool :=
  |p.rotation - newRot| > threshold

/-- The mutable state of the `GameServer` class: `rooms` (roomId → Room),
`players` (socketId → Player), `socketToRoom`, `uidToSocket`, plus the
socket.io room membership (`socket.join` / automatic leave on disconnect),
which determines the recipients of `socket.to(roomId)` and
`io.to(roomId)`. -/
structure GameState where
  rooms : SMap Room
  players : SMap Player
  socketToRoom : SMap String
  uidToSocket : SMap String
  socketRooms : SMap (List String)
deriving DecidableEq, Repr

/-- GameServer.createRoom(roomId): always uses
CONFIG.MAX_PLAYERS_PER_ROOM. -/
def GameState.createRoom (gs : GameState) (roomId : String) : GameState :=
  { gs with rooms := setA gs.rooms roomId (Room.new roomId MAX_PLAYERS_PER_ROOM) }

/-- The GameServer constructor creates the default room "hawkins-1"; no
other code path of the repository creates a room. -/
def initGameServer : GameState :=
  GameState.createRoom
    { rooms := [], players := [], socketToRoom := [], uidToSocket := [],
      socketRooms := [] } "hawkins-1"

/-- Members of the socket.io room `roomId`. -/
def GameState.roomMembers (gs : GameState) (roomId : String) : List String :=
  (lookupA gs.socketRooms roomId).getD []

/-- The effect of `socket.join(roomId)` (idempotent, like socket.io). -/
def GameState.joinSocketRoom (gs : GameState) (sid roomId : String) : GameState :=
  let members := gs.roomMembers roomId
  if sid ∈ members then gs
  else { gs with socketRooms := setA gs.socketRooms roomId (members ++ [sid]) }

/-- The automatic `socket.leave` of every room on disconnect (socket.io
removes the socket from all rooms before the `disconnect` event fires). -/
def GameState.leaveAllSocketRooms (gs : GameState) (sid : String) : GameState :=
  { gs with socketRooms := gs.socketRooms.map (fun e => (e.1, e.2.filter (fun m => m ≠ sid))) }

/-- Apply a field mutation to the `Player` object of socket `sid`.  In the
source this is a single in-place object mutation; because the same object
is referenced from `GameServer.players` and from `Room.players` of the
player's room, the embedding writes the mutation through to both maps. -/
def GameState.updatePlayerFields (gs : GameState) (sid : String) (f : Player → Player) :
    GameState :=
  let players' := mapValA gs.players sid f
  let rooms' :=
    match lookupA gs.socketToRoom sid with
    | some rid =>
        mapValA gs.rooms rid (fun room => { room with players := mapValA room.players sid f })
    | none => gs.rooms
  { gs with players := players', rooms := rooms' }

/-- The condition guarding the reconnection branch of
`handlePlayerJoin`: `uid && this.uidToSocket.has(uid)`.  The branch only
logs; this predicate is what decides whether a join is recognized as a
reconnection of a known identity. -/
def GameState.isReconnection (gs : GameState) (uid : Option String) : Bool :=
  match uid with
  | some u => (lookupA gs.uidToSocket u).isSome
  | none => false

/-- GameServer.handlePlayerJoin(socket, {username, uid, roomId}).
`spawnPos` stands for the value of `this.getSpawnPosition()`
(`(Math.random()-0.5)*20` for x and z, y = 0). -/
def handlePlayerJoin (gs : GameState) (sid username : String) (uid : Option String)
    (roomId : String) (spawnPos : Position) : GameState × List Emission :=
  match lookupA gs.rooms roomId with
  | none => (gs, [(sid, ServerMsg.errorMsg "Room not found")])
  | some room =>
    if room.isFull then
      (gs, [(sid, ServerMsg.errorMsg "Room is full")])
    else
      -- the `uid && uidToSocket.has(uid)` reconnection branch only logs
      let player := { Player.new sid username spawnPos with firebaseUid := uid }
      let gs₁ := { gs with
        players := setA gs.players sid player
        socketToRoom := setA gs.socketToRoom sid roomId
        uidToSocket :=
          match uid with
          | some u => setA gs.uidToSocket u sid
          | none => gs.uidToSocket }
      let gs₂ := gs₁.joinSocketRoom sid roomId
      (gs₂, [(sid, ServerMsg.selectCharacterScreen sid uid room.getCharacterStates)])

/-- GameServer.handleCharacterSelect(socket, {characterId}). -/
def handleCharacterSelect (gs : GameState) (sid characterId : String) :
    GameState × List Emission :=
  match lookupA gs.players sid with
  | none => (gs, [(sid, ServerMsg.errorMsg "Player not found")])
  | some _ =>
    match lookupA gs.socketToRoom sid with
    | none => (gs, [(sid, ServerMsg.errorMsg "Player not found")])
    | some roomId =>
    match lookupA gs.rooms roomId with
    | none => (gs, [(sid, ServerMsg.errorMsg "Room not found")])
    | some room =>
      match room.selectCharacter sid characterId with
      | (_, SelectResult.err e) =>
          (gs, [(sid, ServerMsg.characterSelectFailed e room.getCharacterStates)])
      | (room', SelectResult.ok) =>
          let gs₁ := { gs with rooms := setA gs.rooms roomId room' }
          let gs₂ := gs₁.updatePlayerFields sid
            (fun p => { p with characterId := some characterId })
          (gs₂,
            (sid, ServerMsg.characterSelected characterId room'.getCharacterStates)
            :: (gs₂.roomMembers roomId).filterMap (fun m =>
                 if m ≠ sid then
                   some (m, ServerMsg.characterStateChanged room'.getCharacterStates)
                 else none))

/-- GameServer.handlePlayerReady(socket): no capacity check — the session
is added to the room unconditionally once it holds a character, and the
`player:spawned` broadcast goes to the whole socket.io room
(`socket.to(roomId)`), not only to the caller's world-state partition. -/
def handlePlayerReady (gs : GameState) (sid : String) : GameState × List Emission :=
  match lookupA gs.players sid with
  | none => (gs, [(sid, ServerMsg.errorMsg "Player not found")])
  | some player =>
    match lookupA gs.socketToRoom sid with
    | none => (gs, [(sid, ServerMsg.errorMsg "Player not found")])
    | some roomId =>
    match lookupA gs.rooms roomId with
    | none => (gs, [(sid, ServerMsg.errorMsg "Room not found")])
    | some room =>
      match player.characterId with
      | none => (gs, [(sid, ServerMsg.errorMsg "Please select a character first")])
      | some _ =>
        let room' := room.addPlayer player
        let gs₁ := { gs with rooms := setA gs.rooms roomId room' }
        (gs₁,
          (sid, ServerMsg.playerJoined sid player.firebaseUid player.serialize
            (((room'.getPlayersInWorldState player.worldState).filter
                (fun p => p.id ≠ sid)).map Player.serialize))
          :: (gs₁.roomMembers roomId).filterMap (fun m =>
               if m ≠ sid then some (m, ServerMsg.playerSpawned player.serialize)
               else none))

/-- Payload of a `player:move` message (well-typed per the interface
catalogue; every field optional). -/
structure MoveData where
  position : Option Position
  rotation : Option ℚ
  animation : Option String
deriving DecidableEq, Repr

/-- The position clamp of `handlePlayerMove`: x and z are clamped into
WORLD_BOUNDS, y is left untouched. -/
def clampPosition (pos : Position) : Position :=
  { x := max WORLD_MIN_X (min WORLD_MAX_X pos.x)
    y := pos.y
    z := max WORLD_MIN_Z (min WORLD_MAX_Z pos.z) }

/-- JS truthiness of the optional `animation` string (the empty string is
falsy). -/
def truthyStr : Option String → Bool
  | some s => !s.isEmpty
  | none => false

/-- GameServer.handlePlayerMove(socket, {position, rotation, animation}):
clamp, threshold check, then state mutation and dirty flag.  No
emission — broadcasting is left to the tick. -/
def handlePlayerMove (gs : GameState) (sid : String) (data : MoveData) :
    GameState × List Emission :=
  match lookupA gs.players sid with
  | none => (gs, [])
  | some player =>
    let position := data.position.map clampPosition
    let posChanged :=
      match position with
      | some np => player.hasPositionChanged np POSITION_THRESHOLD
      | none => false
    let rotChanged :=
      match data.rotation with
      | some nr => player.hasRotationChanged nr ROTATION_THRESHOLD
      | none => false
    let animChanged :=
      truthyStr data.animation &&
        match data.animation with
        | some a => player.animation ≠ a
        | none => true
    if !posChanged && !rotChanged && !animChanged then (gs, [])
    else
      (gs.updatePlayerFields sid (fun p =>
        { p with
          position := match position with | some np => np | none => p.position
          rotation := match data.rotation with | some nr => nr | none => p.rotation
          animation := match data.animation with
                       | some a => if a.isEmpty then p.animation else a
                       | none => p.animation
          needsBroadcast := true }), [])

/-- GameServer.handleWorldChange(socket, {worldState}).  Returns `none`
for the crash that the source would hit (dereferencing a missing room
after the validity checks). -/
def handleWorldChange (gs : GameState) (sid target : String) :
    Option (GameState × List Emission) :=
  match lookupA gs.players sid with
  | none => some (gs, [])
  | some player =>
    match lookupA gs.socketToRoom sid with
    | none => some (gs, [])
    | some roomId =>
    let oldWorldState := player.worldState
    if target ≠ "normal" ∧ target ≠ "upsideDown" then some (gs, [])
    else if oldWorldState = target then some (gs, [])
    else
      match lookupA gs.rooms roomId with
      | none => none
      | some _ =>
        let gs₁ := gs.updatePlayerFields sid (fun p => { p with worldState := target })
        match lookupA gs₁.rooms roomId with
        | none => none
        | some room₁ =>
          let player' := { player with worldState := target }
          let oldWorldPlayers :=
            (room₁.getPlayersInWorldState oldWorldState).filter (fun p => p.id ≠ sid)
          let newWorldPlayers :=
            (room₁.getPlayersInWorldState target).filter (fun p => p.id ≠ sid)
          some (gs₁,
            oldWorldPlayers.map (fun p => (p.id, ServerMsg.playerLeft sid))
            ++ newWorldPlayers.map (fun p =>
                 (p.id, ServerMsg.playerSpawned player'.serialize))
            ++ [(sid, ServerMsg.playerWorldChanged target
                  (newWorldPlayers.map Player.serialize))])

/-- GameServer.handleAnimationChange(socket, {animation}): unconditional
assignment plus dirty flag. -/
def handleAnimationChange (gs : GameState) (sid : String) (animation : String) :
    GameState × List Emission :=
  match lookupA gs.players sid with
  | none => (gs, [])
  | some _ =>
    (gs.updatePlayerFields sid (fun p =>
      { p with animation := animation, needsBroadcast := true }), [])

/-- GameServer.handleChat(socket, {message}): fan out to every session in
the sender's world-state partition (the sender included when ready),
message truncated to 200 characters.  `none` marks the missing-room
crash. -/
def handleChat (gs : GameState) (sid message : String) :
    Option (GameState × List Emission) :=
  match lookupA gs.players sid with
  | none => some (gs, [])
  | some player =>
    match lookupA gs.socketToRoom sid with
    | none => some (gs, [])
    | some roomId =>
    match lookupA gs.rooms roomId with
    | none => none
    | some room =>
      some (gs,
        (room.getPlayersInWorldState player.worldState).map (fun p =>
          (p.id, ServerMsg.playerChat sid player.username (message.take 200))))

/-- GameServer.handleDisconnect(socket).  Socket.io removes the socket
from all rooms before the `disconnect` event fires, so the emissions of
the handler never reach the disconnecting socket through a room
broadcast. -/
def handleDisconnect (gs : GameState) (sid : String) : GameState × List Emission :=
  let gs₀ := gs.leaveAllSocketRooms sid
  match lookupA gs₀.players sid with
  | none =>
    ({ gs₀ with
        players := eraseA gs₀.players sid
        socketToRoom := eraseA gs₀.socketToRoom sid }, [])
  | some player =>
    match lookupA gs₀.socketToRoom sid with
    | none =>
      ({ gs₀ with
          players := eraseA gs₀.players sid
          socketToRoom := eraseA gs₀.socketToRoom sid }, [])
    | some roomId =>
    let step1 :=
      match lookupA gs₀.rooms roomId with
      | none => (gs₀, ([] : List Emission))
      | some room =>
        let rel := room.removePlayer sid
        let room' := rel.1
        let gs₁ := { gs₀ with rooms := setA gs₀.rooms roomId room' }
        let ems₁ : List Emission :=
          (room'.getPlayersInWorldState player.worldState).map (fun (p : Player) =>
            (p.id, ServerMsg.playerLeft sid))
        let ems₂ : List Emission :=
          match rel.2 with
          | some _ => (gs₁.roomMembers roomId).map (fun m =>
              (m, ServerMsg.characterStateChanged room'.getCharacterStates))
          | none => []
        (gs₁, ems₁ ++ ems₂)
    let gs₂ :=
      match player.firebaseUid with
      | some u => { step1.1 with uidToSocket := eraseA step1.1.uidToSocket u }
      | none => step1.1
    ({ gs₂ with
        players := eraseA gs₂.players sid
        socketToRoom := eraseA gs₂.socketToRoom sid }, step1.2)

/-- GameServer.broadcastUpdates(players, roomId): collect the dirty
sessions of one partition into a batch (clearing their dirty flags), then
emit the batch to each member of the partition with that member's own
entry filtered out, skipping members whose filtered batch is empty.
Returns (players with flags cleared, batch, emissions). -/
def broadcastUpdates (players : List Player) :
    List Player × List UpdateEntry × List Emission :=
  let updates := (players.filter (fun p => p.needsBroadcast)).map (fun p =>
    ({ id := p.id, position := p.position, rotation := p.rotation,
       animation := p.animation } : UpdateEntry))
  let players' := players.map (fun p =>
    if p.needsBroadcast then { p with needsBroadcast := false } else p)
  let ems :=
    if 0 < updates.length then
      players.filterMap (fun p =>
        let relevantUpdates := updates.filter (fun u => u.id ≠ p.id)
        if 0 < relevantUpdates.length then
          some (p.id, ServerMsg.playersUpdate relevantUpdates)
        else none)
    else []
  (players', updates, ems)

/-- Clear the dirty flag of every entry whose key is in `collected`: the
write-back of the in-loop mutation `player.needsBroadcast = false` of
`broadcastUpdates` onto a player map (the mutation happens on the shared
Player objects, hence it is applied to the room map and the GameServer
map alike). -/
def clearCollected (m : SMap Player) (collected : List String) : SMap Player :=
  m.map (fun e =>
    if e.1 ∈ collected then (e.1, { e.2 with needsBroadcast := false }) else e)

/-- One room scan of the game loop: broadcast the "normal" partition, then
the "upsideDown" partition; dirty flags of the collected sessions are
cleared on the aliased Player objects (room map and GameServer map). -/
def tickRoom (room : Room) : Room × List String × List Emission :=
  let normalRes := broadcastUpdates (room.getPlayersInWorldState "normal")
  let upsideRes := broadcastUpdates (room.getPlayersInWorldState "upsideDown")
  let collected := (normalRes.2.1.map (fun u => u.id)) ++ (upsideRes.2.1.map (fun u => u.id))
  ({ room with players := clearCollected room.players collected },
   collected, normalRes.2.2 ++ upsideRes.2.2)

/-- One iteration of the `setInterval` body of startGameLoop: scan every
room in order. -/
def tick (gs : GameState) : GameState × List Emission :=
  let scanned := gs.rooms.map (fun e => (e.1, tickRoom e.2))
  let collected := scanned.flatMap (fun e => e.2.2.1)
  ({ gs with
      rooms := scanned.map (fun e => (e.1, e.2.1))
      players := clearCollected gs.players collected },
   scanned.flatMap (fun e => e.2.2.2))

/-- One server transition: an inbound socket event handled to completion,
or one tick of the broadcast loop.  The spawn position of a join carries
the range of `getSpawnPosition` (`(Math.random() - 0.5) * 20` for x and z,
y = 0).  A handler that would crash (`none`) has no successor state. -/
inductive Step : GameState → GameState → Prop where
  | join (gs : GameState) (sid username : String) (uid : Option String)
      (roomId : String) (sp : Position) (gs' : GameState) (ems : List Emission)
      (hx₁ : -10 ≤ sp.x) (hx₂ : sp.x < 10) (hy : sp.y = 0)
      (hz₁ : -10 ≤ sp.z) (hz₂ : sp.z < 10)
      (h : handlePlayerJoin gs sid username uid roomId sp = (gs', ems)) :
      Step gs gs'
  | select (gs : GameState) (sid characterId : String) (gs' : GameState)
      (ems : List Emission)
      (h : handleCharacterSelect gs sid characterId = (gs', ems)) : Step gs gs'
  | ready (gs : GameState) (sid : String) (gs' : GameState) (ems : List Emission)
      (h : handlePlayerReady gs sid = (gs', ems)) : Step gs gs'
  | move (gs : GameState) (sid : String) (data : MoveData) (gs' : GameState)
      (ems : List Emission)
      (h : handlePlayerMove gs sid data = (gs', ems)) : Step gs gs'
  | worldChange (gs : GameState) (sid target : String) (gs' : GameState)
      (ems : List Emission)
      (h : handleWorldChange gs sid target = some (gs', ems)) : Step gs gs'
  | animation (gs : GameState) (sid a : String) (gs' : GameState)
      (ems : List Emission)
      (h : handleAnimationChange gs sid a = (gs', ems)) : Step gs gs'
  | chat (gs : GameState) (sid message : String) (gs' : GameState)
      (ems : List Emission)
      (h : handleChat gs sid message = some (gs', ems)) : Step gs gs'
  | disconnect (gs : GameState) (sid : String) (gs' : GameState)
      (ems : List Emission)
      (h : handleDisconnect gs sid = (gs', ems)) : Step gs gs'
  | tickStep (gs : GameState) (gs' : GameState) (ems : List Emission)
      (h : tick gs = (gs', ems)) : Step gs gs'

/-- The states the server can reach from process start. -/
inductive Reachable : GameState → Prop where
  | init : Reachable initGameServer
  | step {gs gs' : GameState} (hr : Reachable gs) (hs : Step gs gs') : Reachable gs'

theorem lookupA_cons {α : Type} (e : String × α) (l : SMap α) (k : String) :
    lookupA (e :: l) k = if e.1 = k then some e.2 else lookupA l k := by
  by_cases h : e.1 = k <;> simp [lookupA, List.find?_cons, h]

theorem lookupA_eq_none_iff {α : Type} {l : SMap α} {k : String} :
    lookupA l k = none ↔ ∀ e ∈ l, e.1 ≠ k := by
  simp [lookupA, List.find?_eq_none]

theorem mem_of_lookupA {α : Type} {l : SMap α} {k : String} {v : α}
    (h : lookupA l k = some v) : (k, v) ∈ l := by
  simp only [lookupA, Option.map_eq_some'] at h
  obtain ⟨e, he, hev⟩ := h
  have hmem := List.mem_of_find?_eq_some he
  have hkey : e.1 = k := by
    have := List.find?_some he
    simpa using this
  cases e
  simp_all

theorem lookupA_overwrite {α : Type} (l : SMap α) (k k' : String) (v : α) :
    lookupA (l.map (fun e => if e.1 = k then (k, v) else e)) k' =
      if k' = k then (lookupA l k).map (fun _ => v) else lookupA l k' := by
  induction l with
  | nil => by_cases h : k' = k <;> simp [lookupA, h]
  | cons e t ih =>
    by_cases he : e.1 = k <;> by_cases hk : k' = k
    · subst hk
      simp [List.map_cons, lookupA_cons, he, ih]
    · have hk2 : k ≠ k' := fun h => hk h.symm
      simp [List.map_cons, lookupA_cons, he, hk, hk2, ih]
    · subst hk
      simp [List.map_cons, lookupA_cons, he, ih]
    · by_cases he' : e.1 = k' <;>
        simp [List.map_cons, lookupA_cons, he, he', hk, ih]

theorem lookupA_append {α : Type} (l₁ l₂ : SMap α) (k : String) :
    lookupA (l₁ ++ l₂) k = (lookupA l₁ k).or (lookupA l₂ k) := by
  induction l₁ with
  | nil => simp [lookupA]
  | cons e t ih =>
    rw [List.cons_append, lookupA_cons, lookupA_cons]
    by_cases he : e.1 = k
    · simp [he]
    · rw [if_neg he, if_neg he, ih]

theorem any_key_eq_isSome {α : Type} (l : SMap α) (k : String) :
    (l.any fun e => e.1 = k) = (lookupA l k).isSome := by
  induction l with
  | nil => simp [lookupA]
  | cons e t ih =>
    rw [List.any_cons, lookupA_cons]
    by_cases he : e.1 = k
    · simp [he]
    · simp only [if_neg he, he]
      simpa using ih

theorem lookupA_setA_self {α : Type} (l : SMap α) (k : String) (v : α) :
    lookupA (setA l k v) k = some v := by
  unfold setA
  split
  · rw [lookupA_overwrite, if_pos rfl]
    rename_i h
    rw [any_key_eq_isSome] at h
    cases hl : lookupA l k with
    | none => rw [hl] at h; simp at h
    | some w => simp
  · rw [lookupA_append]
    rename_i h
    rw [any_key_eq_isSome] at h
    cases hl : lookupA l k with
    | none => simp [lookupA]
    | some w => rw [hl] at h; simp at h

theorem lookupA_setA_ne {α : Type} (l : SMap α) (k k' : String) (v : α)
    (h : k' ≠ k) : lookupA (setA l k v) k' = lookupA l k' := by
  unfold setA
  split
  · rw [lookupA_overwrite, if_neg h]
  · rw [lookupA_append]
    cases hl : lookupA l k' with
    | none => simp [lookupA, h.symm]
    | some w => simp

theorem keys_overwrite {α : Type} (l : SMap α) (k : String) (v : α) :
    (l.map (fun e => if e.1 = k then (k, v) else e)).map Prod.fst = l.map Prod.fst := by
  induction l with
  | nil => simp
  | cons e t ih =>
    simp only [List.map_cons]
    by_cases he : e.1 = k
    · rw [if_pos he]
      simp only [ih]
      rw [he]
    · rw [if_neg he]
      simp only [ih]

theorem keys_setA {α : Type} (l : SMap α) (k : String) (v : α) :
    (setA l k v).map Prod.fst =
      if (l.any fun e => e.1 = k) then l.map Prod.fst else l.map Prod.fst ++ [k] := by
  unfold setA
  split
  · exact keys_overwrite l k v
  · simp

theorem nodup_keys_setA {α : Type} (l : SMap α) (k : String) (v : α)
    (h : (l.map Prod.fst).Nodup) : ((setA l k v).map Prod.fst).Nodup := by
  rw [keys_setA]
  split
  · exact h
  · rename_i hany
    have hner : ∀ e ∈ l, e.1 ≠ k := by
      intro e he hek
      exact hany (List.any_eq_true.mpr ⟨e, he, by simpa using hek⟩)
    rw [List.nodup_append]
    refine ⟨h, List.nodup_singleton k, ?_⟩
    intro a ha hb
    simp only [List.mem_singleton] at hb
    subst hb
    simp only [List.mem_map] at ha
    obtain ⟨e, he, hek⟩ := ha
    exact hner e he hek

theorem mem_setA {α : Type} {l : SMap α} {k : String} {v : α} {e : String × α}
    (h : e ∈ setA l k v) : e = (k, v) ∨ (e ∈ l ∧ e.1 ≠ k) := by
  unfold setA at h
  split at h
  · simp only [List.mem_map] at h
    obtain ⟨e₀, he₀, heq⟩ := h
    by_cases hk : e₀.1 = k
    · rw [if_pos hk] at heq
      exact Or.inl heq.symm
    · rw [if_neg hk] at heq
      exact Or.inr ⟨heq ▸ he₀, heq ▸ hk⟩
  · rename_i hany
    have hner : ∀ e ∈ l, e.1 ≠ k := by
      intro e₀ he₀ hek
      exact hany (List.any_eq_true.mpr ⟨e₀, he₀, by simpa using hek⟩)
    rw [List.mem_append] at h
    rcases h with h | h
    · exact Or.inr ⟨h, hner e h⟩
    · simp only [List.mem_singleton] at h
      exact Or.inl h

theorem mem_eraseA {α : Type} {l : SMap α} {k : String} {e : String × α} :
    e ∈ eraseA l k ↔ e ∈ l ∧ e.1 ≠ k := by
  simp [eraseA, List.mem_filter]

theorem lookupA_eraseA {α : Type} (l : SMap α) (k k' : String) :
    lookupA (eraseA l k) k' = if k' = k then none else lookupA l k' := by
  induction l with
  | nil => by_cases h : k' = k <;> simp [lookupA, eraseA, h]
  | cons e t ih =>
    simp only [eraseA, ne_eq, decide_not] at ih ⊢
    by_cases he : e.1 = k <;> by_cases hk : k' = k
    · subst hk
      simp [List.filter_cons, lookupA_cons, he, ih]
    · have he2 : e.1 ≠ k' := fun h => hk ((h.symm.trans he))
      have hk2 : ¬k = k' := fun h => hk h.symm
      simp [List.filter_cons, lookupA_cons, he, he2, hk, hk2, ih]
    · subst hk
      simp [List.filter_cons, lookupA_cons, he, ih]
    · by_cases he' : e.1 = k' <;>
        simp [List.filter_cons, lookupA_cons, he, he', hk, ih]

theorem nodup_keys_eraseA {α : Type} (l : SMap α) (k : String)
    (h : (l.map Prod.fst).Nodup) : ((eraseA l k).map Prod.fst).Nodup := by
  have hsub : List.Sublist (eraseA l k) l := List.filter_sublist l
  exact List.Nodup.sublist (List.Sublist.map Prod.fst hsub) h

theorem keys_mapValA {α : Type} (l : SMap α) (k : String) (f : α → α) :
    (mapValA l k f).map Prod.fst = l.map Prod.fst := by
  induction l with
  | nil => rfl
  | cons e t ih =>
    simp only [mapValA, List.map_cons] at *
    by_cases he : e.1 = k
    · rw [if_pos he]
      simp only [ih]
    · rw [if_neg he]
      simp only [ih]

theorem lookupA_mapValA {α : Type} (l : SMap α) (k k' : String) (f : α → α) :
    lookupA (mapValA l k f) k' =
      if k' = k then (lookupA l k).map f else lookupA l k' := by
  induction l with
  | nil => by_cases h : k' = k <;> simp [lookupA, mapValA, h]
  | cons e t ih =>
    simp only [mapValA] at *
    by_cases he : e.1 = k <;> by_cases hk : k' = k
    · subst hk
      simp [List.map_cons, lookupA_cons, he, ih]
    · have he2 : e.1 ≠ k' := fun h => hk ((h.symm.trans he))
      have hk2 : ¬k = k' := fun h => hk h.symm
      simp [List.map_cons, lookupA_cons, he, he2, hk, hk2, ih]
    · subst hk
      simp [List.map_cons, lookupA_cons, he, ih]
    · by_cases he' : e.1 = k' <;>
        simp [List.map_cons, lookupA_cons, he, he', hk, ih]

theorem mem_mapValA {α : Type} {l : SMap α} {k : String} {f : α → α} {e : String × α}
    (h : e ∈ mapValA l k f) :
    (∃ v, (k, v) ∈ l ∧ e = (k, f v)) ∨ (e ∈ l ∧ e.1 ≠ k) := by
  simp only [mapValA, List.mem_map] at h
  obtain ⟨e₀, he₀, heq⟩ := h
  by_cases hk : e₀.1 = k
  · rw [if_pos hk] at heq
    refine Or.inl ⟨e₀.2, ?_, ?_⟩
    · rw [← hk]
      exact he₀
    · rw [← heq, hk]
  · rw [if_neg hk] at heq
    exact Or.inr ⟨heq ▸ he₀, heq ▸ hk⟩

theorem lookupA_of_mem_nodup {α : Type} {l : SMap α} {k : String} {v : α}
    (hnd : (l.map Prod.fst).Nodup) (h : (k, v) ∈ l) : lookupA l k = some v := by
  induction l with
  | nil => simp at h
  | cons e t ih =>
    rw [List.map_cons, List.nodup_cons] at hnd
    rw [List.mem_cons] at h
    rcases h with h | h
    · rw [← h, lookupA_cons, if_pos rfl]
    · rw [lookupA_cons]
      have hne : e.1 ≠ k := by
        intro hek
        exact hnd.1 (hek ▸ List.mem_map_of_mem Prod.fst h)
      rw [if_neg hne]
      exact ih hnd.2 h

theorem length_le_of_assigned (ps : List String) (sc : SMap String)
    (hnd : ps.Nodup) (h : ∀ pid ∈ ps, ∃ ce ∈ sc, ce.2 = pid) :
    ps.length ≤ sc.length := by
  induction ps generalizing sc with
  | nil => simp
  | cons pid rest ih =>
    rw [List.nodup_cons] at hnd
    obtain ⟨ce, hce, hval⟩ := h pid (List.mem_cons_self pid rest)
    have hrest : ∀ q ∈ rest, ∃ ce' ∈ sc.erase ce, ce'.2 = q := by
      intro q hq
      obtain ⟨ce', hce', hval'⟩ := h q (List.mem_cons_of_mem pid hq)
      have hne : ce' ≠ ce := by
        intro hh
        subst hh
        rw [hval'] at hval
        exact hnd.1 (hval ▸ hq)
      exact ⟨ce', (List.mem_erase_of_ne hne).mpr hce', hval'⟩
    have h1 : rest.length ≤ (sc.erase ce).length := ih (sc.erase ce) hnd.2 hrest
    have h2 : (sc.erase ce).length = sc.length - 1 := List.length_erase_of_mem hce
    have h3 : 1 ≤ sc.length := List.length_pos.mpr (fun hnil => by simp [hnil] at hce)
    simp only [List.length_cons]
    omega

theorem length_le_six_of_keys (sc : SMap String)
    (hnd : (sc.map Prod.fst).Nodup)
    (hsub : ∀ e ∈ sc, e.1 ∈ AVAILABLE_CHARACTERS) : sc.length ≤ 6 := by
  have h1 : sc.length = (sc.map Prod.fst).length := (List.length_map sc Prod.fst).symm
  have h2 : (sc.map Prod.fst) ⊆ AVAILABLE_CHARACTERS := by
    intro a ha
    simp only [List.mem_map] at ha
    obtain ⟨e, he, hk⟩ := ha
    exact hk ▸ hsub e he
  have h3 := List.Subperm.length_le (List.Nodup.subperm hnd h2)
  simpa [AVAILABLE_CHARACTERS] using h1 ▸ h3

/-- Whether a position is inside the world's x/z rectangle. -/
def inBoundsXZ (pos : Position) : Prop :=
  WORLD_MIN_X ≤ pos.x ∧ pos.x ≤ WORLD_MAX_X ∧ WORLD_MIN_Z ≤ pos.z ∧ pos.z ≤ WORLD_MAX_Z

/-- The inductive invariant of the server state, preserved by every `Step`:

* map keys are unique everywhere (the JS `Map` discipline);
* every character entry names one of the six AVAILABLE_CHARACTERS;
* a session holds at most one character entry per room;
* every ready session (a key of `Room.players`) holds a character entry;
* every `Player` object carries its own socket id as `id` and an x/z
  position inside WORLD_BOUNDS;
* rooms are created with capacity MAX_PLAYERS_PER_ROOM;
* a player whose `characterId` is set holds a character entry in the room
  its socket currently maps to. -/
structure ServerInv (gs : GameState) : Prop where
  roomsNodup : (gs.rooms.map Prod.fst).Nodup
  playersNodup : (gs.players.map Prod.fst).Nodup
  socketToRoomNodup : (gs.socketToRoom.map Prod.fst).Nodup
  uidToSocketNodup : (gs.uidToSocket.map Prod.fst).Nodup
  roomPlayersNodup : ∀ e ∈ gs.rooms, (e.2.players.map Prod.fst).Nodup
  roomCharsNodup : ∀ e ∈ gs.rooms, (e.2.selectedCharacters.map Prod.fst).Nodup
  roomCharsValid : ∀ e ∈ gs.rooms, ∀ ce ∈ e.2.selectedCharacters,
    ce.1 ∈ AVAILABLE_CHARACTERS
  roomCharsPerPid : ∀ e ∈ gs.rooms, ∀ pid : String,
    (e.2.selectedCharacters.filter (fun ce => ce.2 = pid)).length ≤ 1
  roomPlayersHaveChar : ∀ e ∈ gs.rooms, ∀ pe ∈ e.2.players,
    ∃ ce ∈ e.2.selectedCharacters, ce.2 = pe.1
  roomPlayersWellFormed : ∀ e ∈ gs.rooms, ∀ pe ∈ e.2.players,
    pe.2.id = pe.1 ∧ inBoundsXZ pe.2.position
  roomCapacity : ∀ e ∈ gs.rooms, e.2.maxPlayers = MAX_PLAYERS_PER_ROOM
  playersWellFormed : ∀ pe ∈ gs.players, pe.2.id = pe.1 ∧ inBoundsXZ pe.2.position
  charConsistent : ∀ pe ∈ gs.players, pe.2.characterId.isSome →
    ∃ rid : String, lookupA gs.socketToRoom pe.1 = some rid ∧
      ∃ room : Room, lookupA gs.rooms rid = some room ∧
        ∃ ce ∈ room.selectedCharacters, ce.2 = pe.1

theorem inv_init : ServerInv initGameServer := by
  constructor <;> simp [initGameServer, GameState.createRoom, Room.new, setA]

theorem two_le_length_of_mem_ne {α : Type} {l : List α} {a b : α}
    (ha : a ∈ l) (hb : b ∈ l) (hne : a ≠ b) : 2 ≤ l.length := by
  match l with
  | [] => simp at ha
  | [x] =>
    simp only [List.mem_singleton] at ha hb
    exact absurd (ha.trans hb.symm) hne
  | x :: y :: t => simp [List.length_cons]

theorem lookupA_mapSnd {α β : Type} (l : SMap α) (g : α → β) (k : String) :
    lookupA (l.map (fun e => (e.1, g e.2))) k = (lookupA l k).map g := by
  induction l with
  | nil => simp [lookupA]
  | cons e t ih =>
    rw [List.map_cons, lookupA_cons, lookupA_cons]
    by_cases he : e.1 = k
    · simp [he]
    · rw [if_neg he, if_neg he, ih]

/-- ServerInv only depends on the four JS maps of the GameServer object,
not on socket.io room membership. -/
theorem serverInv_congr {gs gs' : GameState}
    (h1 : gs'.rooms = gs.rooms) (h2 : gs'.players = gs.players)
    (h3 : gs'.socketToRoom = gs.socketToRoom)
    (h4 : gs'.uidToSocket = gs.uidToSocket)
    (hinv : ServerInv gs) : ServerInv gs' := by
  cases hinv
  constructor <;> simp only [h1, h2, h3, h4] <;> assumption

theorem joinSocketRoom_fields (gs : GameState) (sid rid : String) :
    (gs.joinSocketRoom sid rid).rooms = gs.rooms ∧
    (gs.joinSocketRoom sid rid).players = gs.players ∧
    (gs.joinSocketRoom sid rid).socketToRoom = gs.socketToRoom ∧
    (gs.joinSocketRoom sid rid).uidToSocket = gs.uidToSocket := by
  unfold GameState.joinSocketRoom
  by_cases hm : sid ∈ gs.roomMembers rid <;> simp [hm]

theorem leaveAllSocketRooms_fields (gs : GameState) (sid : String) :
    (gs.leaveAllSocketRooms sid).rooms = gs.rooms ∧
    (gs.leaveAllSocketRooms sid).players = gs.players ∧
    (gs.leaveAllSocketRooms sid).socketToRoom = gs.socketToRoom ∧
    (gs.leaveAllSocketRooms sid).uidToSocket = gs.uidToSocket :=
  ⟨rfl, rfl, rfl, rfl⟩

/-- Generic preservation: a write-through field update that keeps the
player's id and x/z bounds preserves the invariant, provided the updated
characterId (when set) is justified by a held character slot. -/
theorem inv_updatePlayerFields_general (gs : GameState) (sid : String) (f : Player → Player)
    (hinv : ServerInv gs)
    (hid : ∀ p : Player, (f p).id = p.id)
    (hbnd : ∀ p : Player, inBoundsXZ p.position → inBoundsXZ (f p).position)
    (hcc : ∀ v : Player, (sid, v) ∈ gs.players → (f v).characterId.isSome →
      ∃ rid : String, lookupA gs.socketToRoom sid = some rid ∧
        ∃ room : Room, lookupA gs.rooms rid = some room ∧
          ∃ ce ∈ room.selectedCharacters, ce.2 = sid) :
    ServerInv (gs.updatePlayerFields sid f) := by
  unfold GameState.updatePlayerFields
  cases hstr : lookupA gs.socketToRoom sid with
  | none =>
    simp only [hstr]
    constructor <;> dsimp only
    case roomsNodup => exact hinv.roomsNodup
    case playersNodup => rw [keys_mapValA]; exact hinv.playersNodup
    case socketToRoomNodup => exact hinv.socketToRoomNodup
    case uidToSocketNodup => exact hinv.uidToSocketNodup
    case roomPlayersNodup => exact hinv.roomPlayersNodup
    case roomCharsNodup => exact hinv.roomCharsNodup
    case roomCharsValid => exact hinv.roomCharsValid
    case roomCharsPerPid => exact hinv.roomCharsPerPid
    case roomPlayersHaveChar => exact hinv.roomPlayersHaveChar
    case roomPlayersWellFormed => exact hinv.roomPlayersWellFormed
    case roomCapacity => exact hinv.roomCapacity
    case playersWellFormed =>
      intro pe hpe
      rcases mem_mapValA hpe with ⟨v, hv, heq⟩ | ⟨hmem, _⟩
      · subst heq
        obtain ⟨hid0, hb0⟩ := hinv.playersWellFormed (sid, v) hv
        exact ⟨(hid v).trans hid0, hbnd v hb0⟩
      · exact hinv.playersWellFormed pe hmem
    case charConsistent =>
      intro pe hpe hsome
      rcases mem_mapValA hpe with ⟨v, hv, heq⟩ | ⟨hmem, _⟩
      · subst heq
        obtain ⟨rid, hrid, rest⟩ := hcc v hv hsome
        rw [hstr] at hrid
        cases hrid
      · exact hinv.charConsistent pe hmem hsome
  | some rid =>
    simp only [hstr]
    constructor <;> dsimp only
    case roomsNodup => rw [keys_mapValA]; exact hinv.roomsNodup
    case playersNodup => rw [keys_mapValA]; exact hinv.playersNodup
    case socketToRoomNodup => exact hinv.socketToRoomNodup
    case uidToSocketNodup => exact hinv.uidToSocketNodup
    case roomPlayersNodup =>
      intro e he
      rcases mem_mapValA he with ⟨room, hroom, heq⟩ | ⟨hmem, _⟩
      · subst heq
        simpa [keys_mapValA] using hinv.roomPlayersNodup (rid, room) hroom
      · exact hinv.roomPlayersNodup e hmem
    case roomCharsNodup =>
      intro e he
      rcases mem_mapValA he with ⟨room, hroom, heq⟩ | ⟨hmem, _⟩
      · subst heq
        exact hinv.roomCharsNodup (rid, room) hroom
      · exact hinv.roomCharsNodup e hmem
    case roomCharsValid =>
      intro e he
      rcases mem_mapValA he with ⟨room, hroom, heq⟩ | ⟨hmem, _⟩
      · subst heq
        exact hinv.roomCharsValid (rid, room) hroom
      · exact hinv.roomCharsValid e hmem
    case roomCharsPerPid =>
      intro e he
      rcases mem_mapValA he with ⟨room, hroom, heq⟩ | ⟨hmem, _⟩
      · subst heq
        exact hinv.roomCharsPerPid (rid, room) hroom
      · exact hinv.roomCharsPerPid e hmem
    case roomPlayersHaveChar =>
      intro e he pe hpe
      rcases mem_mapValA he with ⟨room, hroom, heq⟩ | ⟨hmem, _⟩
      · subst heq
        simp only at hpe
        rcases mem_mapValA hpe with ⟨v, hv, heq2⟩ | ⟨hmem2, _⟩
        · subst heq2
          exact hinv.roomPlayersHaveChar (rid, room) hroom (sid, v) hv
        · exact hinv.roomPlayersHaveChar (rid, room) hroom pe hmem2
      · exact hinv.roomPlayersHaveChar e hmem pe hpe
    case roomPlayersWellFormed =>
      intro e he pe hpe
      rcases mem_mapValA he with ⟨room, hroom, heq⟩ | ⟨hmem, _⟩
      · subst heq
        simp only at hpe
        rcases mem_mapValA hpe with ⟨v, hv, heq2⟩ | ⟨hmem2, _⟩
        · subst heq2
          obtain ⟨hid0, hb0⟩ := hinv.roomPlayersWellFormed (rid, room) hroom (sid, v) hv
          exact ⟨(hid v).trans hid0, hbnd v hb0⟩
        · exact hinv.roomPlayersWellFormed (rid, room) hroom pe hmem2
      · exact hinv.roomPlayersWellFormed e hmem pe hpe
    case roomCapacity =>
      intro e he
      rcases mem_mapValA he with ⟨room, hroom, heq⟩ | ⟨hmem, _⟩
      · subst heq
        exact hinv.roomCapacity (rid, room) hroom
      · exact hinv.roomCapacity e hmem
    case playersWellFormed =>
      intro pe hpe
      rcases mem_mapValA hpe with ⟨v, hv, heq⟩ | ⟨hmem, _⟩
      · subst heq
        obtain ⟨hid0, hb0⟩ := hinv.playersWellFormed (sid, v) hv
        exact ⟨(hid v).trans hid0, hbnd v hb0⟩
      · exact hinv.playersWellFormed pe hmem
    case charConsistent =>
      intro pe hpe hsome
      rcases mem_mapValA hpe with ⟨v, hv, heq⟩ | ⟨hmem, hne⟩
      · subst heq
        obtain ⟨rid1, hrid1, room1, hroom1, ce, hce, hval⟩ := hcc v hv hsome
        simp only at hrid1 ⊢
        rw [hstr] at hrid1
        cases hrid1
        refine ⟨rid, hstr, ?_⟩
        rw [lookupA_mapValA, if_pos rfl, hroom1]
        exact ⟨_, rfl, ce, hce, hval⟩
      · obtain ⟨rid1, hrid1, room1, hroom1, ce, hce, hval⟩ :=
          hinv.charConsistent pe hmem hsome
        refine ⟨rid1, hrid1, ?_⟩
        by_cases hr : rid1 = rid
        · subst hr
          rw [lookupA_mapValA, if_pos rfl, hroom1]
          exact ⟨_, rfl, ce, hce, hval⟩
        · rw [lookupA_mapValA, if_neg hr]
          exact ⟨room1, hroom1, ce, hce, hval⟩

/-- Special case: the update does not touch characterId at all. -/
theorem inv_updatePlayerFields (gs : GameState) (sid : String) (f : Player → Player)
    (hinv : ServerInv gs)
    (hid : ∀ p : Player, (f p).id = p.id)
    (hbnd : ∀ p : Player, inBoundsXZ p.position → inBoundsXZ (f p).position)
    (hchar : ∀ p : Player, (f p).characterId = p.characterId) :
    ServerInv (gs.updatePlayerFields sid f) := by
  refine inv_updatePlayerFields_general gs sid f hinv hid hbnd ?_
  intro v hv hsome
  rw [hchar v] at hsome
  obtain ⟨rid, hrid, room, hroom, ce, hce, hval⟩ := hinv.charConsistent (sid, v) hv hsome
  exact ⟨rid, hrid, room, hroom, ce, hce, hval⟩

theorem releaseCharacter_players (room : Room) (pid : String) :
    (room.releaseCharacter pid).1.players = room.players := by
  unfold Room.releaseCharacter
  split <;> rfl

theorem releaseCharacter_static (room : Room) (pid : String) :
    (room.releaseCharacter pid).1.maxPlayers = room.maxPlayers ∧
    (room.releaseCharacter pid).1.id = room.id := by
  unfold Room.releaseCharacter
  split <;> exact ⟨rfl, rfl⟩

theorem mem_of_mem_release {room : Room} {pid : String} {e : String × String}
    (h : e ∈ (room.releaseCharacter pid).1.selectedCharacters) :
    e ∈ room.selectedCharacters := by
  unfold Room.releaseCharacter at h
  split at h
  · exact (mem_eraseA.mp h).1
  · exact h

theorem mem_release_of_mem {room : Room} {pid : String} {e : String × String}
    (hnd : (room.selectedCharacters.map Prod.fst).Nodup)
    (he : e ∈ room.selectedCharacters) (hv : e.2 ≠ pid) :
    e ∈ (room.releaseCharacter pid).1.selectedCharacters := by
  unfold Room.releaseCharacter
  cases hf : room.selectedCharacters.find? (fun q => q.2 = pid) with
  | none => exact he
  | some ce =>
    have hcem : ce ∈ room.selectedCharacters := List.mem_of_find?_eq_some hf
    have hcev : ce.2 = pid := by simpa using List.find?_some hf
    simp only
    rw [mem_eraseA]
    refine ⟨he, ?_⟩
    intro hkey
    have h1 := lookupA_of_mem_nodup hnd (show (e.1, e.2) ∈ _ from he)
    have h2 := lookupA_of_mem_nodup hnd (show (ce.1, ce.2) ∈ _ from hcem)
    rw [hkey] at h1
    rw [h1] at h2
    have : e.2 = ce.2 := by injection h2
    exact hv (this ▸ hcev)

theorem release_removes {room : Room} {pid : String}
    (hcnt : (room.selectedCharacters.filter (fun ce => ce.2 = pid)).length ≤ 1) :
    ∀ e ∈ (room.releaseCharacter pid).1.selectedCharacters, e.2 ≠ pid := by
  unfold Room.releaseCharacter
  cases hf : room.selectedCharacters.find? (fun q => q.2 = pid) with
  | none =>
    intro e he hv
    have := List.find?_eq_none.mp hf e he
    simp [hv] at this
  | some ce =>
    intro e he hv
    simp only at he
    rw [mem_eraseA] at he
    have hcem : ce ∈ room.selectedCharacters := List.mem_of_find?_eq_some hf
    have hcev : ce.2 = pid := by simpa using List.find?_some hf
    have hne : e ≠ ce := by
      intro hh
      exact he.2 (hh ▸ rfl)
    have he1 : e ∈ room.selectedCharacters.filter (fun ce => ce.2 = pid) :=
      List.mem_filter.mpr ⟨he.1, by simpa using hv⟩
    have he2 : ce ∈ room.selectedCharacters.filter (fun ce => ce.2 = pid) :=
      List.mem_filter.mpr ⟨hcem, by simpa using hcev⟩
    have := two_le_length_of_mem_ne he1 he2 hne
    omega

theorem release_filter_sublist (room : Room) (pid q : String) :
    List.Sublist
      ((room.releaseCharacter pid).1.selectedCharacters.filter (fun ce => ce.2 = q))
      (room.selectedCharacters.filter (fun ce => ce.2 = q)) := by
  unfold Room.releaseCharacter
  cases hf : room.selectedCharacters.find? (fun e => e.2 = pid) with
  | none => simp
  | some ce =>
    simp only [eraseA]
    exact List.Sublist.filter _ (List.filter_sublist _)

theorem release_nodup_keys (room : Room) (pid : String)
    (hnd : (room.selectedCharacters.map Prod.fst).Nodup) :
    ((room.releaseCharacter pid).1.selectedCharacters.map Prod.fst).Nodup := by
  unfold Room.releaseCharacter
  cases hf : room.selectedCharacters.find? (fun e => e.2 = pid) with
  | none => exact hnd
  | some ce => exact nodup_keys_eraseA _ _ hnd

/-- Facts about a successful selectCharacter: the character is valid and
was free, players/capacity untouched, and the new character map is the
released map with `(characterId, playerId)` appended. -/
theorem selectCharacter_ok {room room' : Room} {pid c : String}
    (h : room.selectCharacter pid c = (room', SelectResult.ok)) :
    c ∈ AVAILABLE_CHARACTERS ∧ lookupA room.selectedCharacters c = none ∧
    room'.players = room.players ∧ room'.maxPlayers = room.maxPlayers ∧
    room'.selectedCharacters =
      (room.releaseCharacter pid).1.selectedCharacters ++ [(c, pid)] := by
  unfold Room.selectCharacter at h
  by_cases hav : c ∈ AVAILABLE_CHARACTERS
  · rw [if_neg (by simpa using hav)] at h
    cases hl : lookupA room.selectedCharacters c with
    | some w => rw [hl] at h; simp at h
    | none =>
      rw [hl] at h
      simp only [Option.isSome_none, Bool.false_eq_true, if_false] at h
      have hrel : room' = { (room.releaseCharacter pid).1 with
          selectedCharacters :=
            setA (room.releaseCharacter pid).1.selectedCharacters c pid } := by
        cases h; rfl
      refine ⟨hav, hl ▸ rfl, ?_, ?_, ?_⟩
      · rw [hrel]
        exact releaseCharacter_players room pid
      · rw [hrel]
        exact (releaseCharacter_static room pid).1
      · rw [hrel]
        simp only
        unfold setA
        rw [if_neg ?_]
        rw [any_key_eq_isSome]
        have : lookupA (room.releaseCharacter pid).1.selectedCharacters c = none := by
          rw [lookupA_eq_none_iff]
          intro e he hk
          have hmem := mem_of_mem_release he
          rw [lookupA_eq_none_iff] at hl
          exact hl e hmem hk
        rw [this]
        simp
  · rw [if_pos (by simpa using hav)] at h
    simp at h

theorem inBoundsXZ_clamp (pos : Position) : inBoundsXZ (clampPosition pos) := by
  unfold inBoundsXZ clampPosition WORLD_MIN_X WORLD_MAX_X WORLD_MIN_Z WORLD_MAX_Z
  refine ⟨le_max_left _ _, max_le (by norm_num) (min_le_left _ _),
    le_max_left _ _, max_le (by norm_num) (min_le_left _ _)⟩

theorem inv_join {gs gs' : GameState} {sid username : String} {uid : Option String}
    {roomId : String} {sp : Position} {ems : List Emission}
    (hinv : ServerInv gs) (hb : inBoundsXZ sp)
    (h : handlePlayerJoin gs sid username uid roomId sp = (gs', ems)) :
    ServerInv gs' := by
  unfold handlePlayerJoin at h
  cases hroom : lookupA gs.rooms roomId with
  | none =>
    rw [hroom] at h
    cases h
    exact hinv
  | some room =>
    rw [hroom] at h
    simp only at h
    by_cases hfull : room.isFull
    · rw [if_pos hfull] at h
      cases h
      exact hinv
    · rw [if_neg hfull] at h
      cases h
      obtain ⟨f1, f2, f3, f4⟩ := joinSocketRoom_fields
        { gs with
          players := setA gs.players sid
            { Player.new sid username sp with firebaseUid := uid }
          socketToRoom := setA gs.socketToRoom sid roomId
          uidToSocket :=
            match uid with
            | some u => setA gs.uidToSocket u sid
            | none => gs.uidToSocket } sid roomId
      refine serverInv_congr f1 f2 f3 f4 ?_
      refine ⟨?_, ?_, ?_, ?_, ?_, ?_, ?_, ?_, ?_, ?_, ?_, ?_, ?_⟩ <;> (try dsimp only)
      · exact hinv.roomsNodup
      · exact nodup_keys_setA _ _ _ hinv.playersNodup
      · exact nodup_keys_setA _ _ _ hinv.socketToRoomNodup
      · cases uid with
        | none => exact hinv.uidToSocketNodup
        | some u => exact nodup_keys_setA _ _ _ hinv.uidToSocketNodup
      · exact hinv.roomPlayersNodup
      · exact hinv.roomCharsNodup
      · exact hinv.roomCharsValid
      · exact hinv.roomCharsPerPid
      · exact hinv.roomPlayersHaveChar
      · exact hinv.roomPlayersWellFormed
      · exact hinv.roomCapacity
      · intro pe hpe
        rcases mem_setA hpe with heq | ⟨hmem, _⟩
        · subst heq
          exact ⟨rfl, hb⟩
        · exact hinv.playersWellFormed pe hmem
      · intro pe hpe hsome
        rcases mem_setA hpe with heq | ⟨hmem, hne⟩
        · subst heq
          simp [Player.new] at hsome
        · obtain ⟨rid1, hrid1, rest⟩ := hinv.charConsistent pe hmem hsome
          exact ⟨rid1, by rw [lookupA_setA_ne _ _ _ _ hne]; exact hrid1, rest⟩

theorem inv_move {gs gs' : GameState} {sid : String} {data : MoveData}
    {ems : List Emission} (hinv : ServerInv gs)
    (h : handlePlayerMove gs sid data = (gs', ems)) : ServerInv gs' := by
  unfold handlePlayerMove at h
  cases hp : lookupA gs.players sid with
  | none =>
    rw [hp] at h
    cases h
    exact hinv
  | some player =>
    rw [hp] at h
    dsimp only at h
    split at h
    · cases h
      exact hinv
    · cases h
      refine inv_updatePlayerFields gs sid _ hinv (fun p => rfl) ?_ (fun p => rfl)
      intro p hpb
      cases hpos : data.position with
      | none => simpa [hpos] using hpb
      | some np => simpa [hpos] using inBoundsXZ_clamp np

theorem inv_animation {gs gs' : GameState} {sid a : String}
    {ems : List Emission} (hinv : ServerInv gs)
    (h : handleAnimationChange gs sid a = (gs', ems)) : ServerInv gs' := by
  unfold handleAnimationChange at h
  cases hp : lookupA gs.players sid with
  | none =>
    rw [hp] at h
    cases h
    exact hinv
  | some player =>
    rw [hp] at h
    cases h
    exact inv_updatePlayerFields gs sid _ hinv (fun p => rfl) (fun p hb => hb) (fun p => rfl)

theorem handleChat_state {gs gs' : GameState} {sid m : String} {ems : List Emission}
    (h : handleChat gs sid m = some (gs', ems)) : gs' = gs := by
  unfold handleChat at h
  cases h1 : lookupA gs.players sid with
  | none =>
    rw [h1] at h
    cases h
    rfl
  | some player =>
    rw [h1] at h
    dsimp only at h
    cases h2 : lookupA gs.socketToRoom sid with
    | none =>
      rw [h2] at h
      cases h
      rfl
    | some roomId =>
      rw [h2] at h
      dsimp only at h
      cases h3 : lookupA gs.rooms roomId with
      | none =>
        rw [h3] at h
        cases h
      | some room =>
        rw [h3] at h
        cases h
        rfl

theorem inv_chat {gs gs' : GameState} {sid m : String} {ems : List Emission}
    (hinv : ServerInv gs) (h : handleChat gs sid m = some (gs', ems)) :
    ServerInv gs' := (handleChat_state h) ▸ hinv

theorem inv_worldChange {gs gs' : GameState} {sid target : String}
    {ems : List Emission} (hinv : ServerInv gs)
    (h : handleWorldChange gs sid target = some (gs', ems)) : ServerInv gs' := by
  unfold handleWorldChange at h
  cases h1 : lookupA gs.players sid with
  | none =>
    rw [h1] at h
    cases h
    exact hinv
  | some player =>
    rw [h1] at h
    dsimp only at h
    cases h2 : lookupA gs.socketToRoom sid with
    | none =>
      rw [h2] at h
      cases h
      exact hinv
    | some roomId =>
      rw [h2] at h
      dsimp only at h
      split at h
      · cases h
        exact hinv
      · split at h
        · cases h
          exact hinv
        · cases h3 : lookupA gs.rooms roomId with
          | none =>
            rw [h3] at h
            cases h
          | some room =>
            rw [h3] at h
            dsimp only at h
            split at h
            · cases h
            · cases h
              exact inv_updatePlayerFields gs sid _ hinv (fun p => rfl)
                (fun p hb => hb) (fun p => rfl)

theorem inv_select {gs gs' : GameState} {sid c : String} {ems : List Emission}
    (hinv : ServerInv gs) (h : handleCharacterSelect gs sid c = (gs', ems)) :
    ServerInv gs' := by
  unfold handleCharacterSelect at h
  cases h1 : lookupA gs.players sid with
  | none =>
    rw [h1] at h
    cases h
    exact hinv
  | some player =>
    rw [h1] at h
    dsimp only at h
    cases h2 : lookupA gs.socketToRoom sid with
    | none =>
      rw [h2] at h
      cases h
      exact hinv
    | some roomId =>
      rw [h2] at h
      dsimp only at h
      cases h3 : lookupA gs.rooms roomId with
      | none =>
        rw [h3] at h
        cases h
        exact hinv
      | some room =>
        rw [h3] at h
        dsimp only at h
        cases h4 : room.selectCharacter sid c with
        | mk room' res =>
          rw [h4] at h
          cases res with
          | err e =>
            dsimp only at h
            cases h
            exact hinv
          | ok =>
            dsimp only at h
            cases h
            obtain ⟨hav, hfree, hpl, hmax, hsc⟩ := selectCharacter_ok h4
            have hroomMem : (roomId, room) ∈ gs.rooms := mem_of_lookupA h3
            have hndsc : (room.selectedCharacters.map Prod.fst).Nodup :=
              hinv.roomCharsNodup _ hroomMem
            have hrelnd :
                (((room.releaseCharacter sid).1.selectedCharacters).map Prod.fst).Nodup :=
              release_nodup_keys room sid hndsc
            have hcnotin : ∀ e ∈ (room.releaseCharacter sid).1.selectedCharacters,
                e.1 ≠ c := by
              intro e he
              exact lookupA_eq_none_iff.mp hfree e (mem_of_mem_release he)
            have hinv₁ : ServerInv { gs with rooms := setA gs.rooms roomId room' } := by
              refine ⟨?_, ?_, ?_, ?_, ?_, ?_, ?_, ?_, ?_, ?_, ?_, ?_, ?_⟩ <;> (try dsimp only)
              · exact nodup_keys_setA _ _ _ hinv.roomsNodup
              · exact hinv.playersNodup
              · exact hinv.socketToRoomNodup
              · exact hinv.uidToSocketNodup
              · intro e he
                rcases mem_setA he with heq | ⟨hmem, _⟩
                · subst heq
                  dsimp only
                  rw [hpl]
                  exact hinv.roomPlayersNodup _ hroomMem
                · exact hinv.roomPlayersNodup e hmem
              · intro e he
                rcases mem_setA he with heq | ⟨hmem, _⟩
                · subst heq
                  dsimp only
                  rw [hsc, List.map_append, List.nodup_append]
                  refine ⟨hrelnd, by simp, ?_⟩
                  intro a ha hb
                  simp only [List.map_cons, List.map_nil, List.mem_singleton] at hb
                  subst hb
                  simp only [List.mem_map] at ha
                  obtain ⟨e0, he0, hk⟩ := ha
                  exact hcnotin e0 he0 hk
                · exact hinv.roomCharsNodup e hmem
              · intro e he ce hce
                rcases mem_setA he with heq | ⟨hmem, _⟩
                · subst heq
                  dsimp only at hce
                  rw [hsc, List.mem_append] at hce
                  rcases hce with hce | hce
                  · exact hinv.roomCharsValid _ hroomMem ce (mem_of_mem_release hce)
                  · simp only [List.mem_singleton] at hce
                    subst hce
                    exact hav
                · exact hinv.roomCharsValid e hmem ce hce
              · intro e he q
                rcases mem_setA he with heq | ⟨hmem, _⟩
                · subst heq
                  dsimp only
                  rw [hsc, List.filter_append]
                  by_cases hq : q = sid
                  · have hnone : ((room.releaseCharacter sid).1.selectedCharacters.filter
                        (fun ce => ce.2 = q)) = [] := by
                      rw [List.filter_eq_nil_iff]
                      intro a ha
                      have h5 := release_removes
                        (hinv.roomCharsPerPid _ hroomMem sid) a ha
                      simp only [decide_eq_true_eq]
                      rw [hq]
                      exact h5
                    rw [hnone]
                    simp [hq]
                  · have hone : (([(c, sid)] : SMap String).filter
                        (fun ce => ce.2 = q)) = [] := by
                      simp [show sid ≠ q from fun hh => hq hh.symm]
                    rw [hone, List.append_nil]
                    calc ((room.releaseCharacter sid).1.selectedCharacters.filter
                            (fun ce => ce.2 = q)).length
                        ≤ (room.selectedCharacters.filter (fun ce => ce.2 = q)).length :=
                          List.Sublist.length_le (release_filter_sublist room sid q)
                      _ ≤ 1 := hinv.roomCharsPerPid _ hroomMem q
                · exact hinv.roomCharsPerPid e hmem q
              · intro e he pe hpe
                rcases mem_setA he with heq | ⟨hmem, _⟩
                · subst heq
                  dsimp only at hpe ⊢
                  rw [hpl] at hpe
                  rw [hsc]
                  by_cases hps : pe.1 = sid
                  · refine ⟨(c, sid), ?_, hps.symm⟩
                    simp
                  · obtain ⟨ce, hce, hval⟩ := hinv.roomPlayersHaveChar _ hroomMem pe hpe
                    refine ⟨ce, ?_, hval⟩
                    rw [List.mem_append]
                    exact Or.inl (mem_release_of_mem hndsc hce (by rw [hval]; exact hps))
                · exact hinv.roomPlayersHaveChar e hmem pe hpe
              · intro e he pe hpe
                rcases mem_setA he with heq | ⟨hmem, _⟩
                · subst heq
                  dsimp only at hpe
                  rw [hpl] at hpe
                  exact hinv.roomPlayersWellFormed _ hroomMem pe hpe
                · exact hinv.roomPlayersWellFormed e hmem pe hpe
              · intro e he
                rcases mem_setA he with heq | ⟨hmem, _⟩
                · subst heq
                  dsimp only
                  rw [hmax]
                  exact hinv.roomCapacity _ hroomMem
                · exact hinv.roomCapacity e hmem
              · exact hinv.playersWellFormed
              · intro pe hpe hsome
                obtain ⟨rid1, hrid1, room1, hroom1, ce, hce, hval⟩ :=
                  hinv.charConsistent pe hpe hsome
                refine ⟨rid1, hrid1, ?_⟩
                by_cases hr : rid1 = roomId
                · subst hr
                  rw [hroom1] at h3
                  cases h3
                  refine ⟨room', lookupA_setA_self _ _ _, ?_⟩
                  rw [hsc]
                  by_cases hps : pe.1 = sid
                  · exact ⟨(c, sid), by simp, hps.symm⟩
                  · exact ⟨ce, List.mem_append.mpr
                      (Or.inl (mem_release_of_mem hndsc hce (by rw [hval]; exact hps))), hval⟩
                · exact ⟨room1, by rw [lookupA_setA_ne _ _ _ _ hr]; exact hroom1,
                    ce, hce, hval⟩
            refine inv_updatePlayerFields_general _ sid _ hinv₁ (fun p => rfl)
              (fun p hb => hb) ?_
            intro v hv hsome
            refine ⟨roomId, h2, room', lookupA_setA_self _ _ _, (c, sid), ?_, rfl⟩
            rw [hsc]
            simp

theorem inv_ready {gs gs' : GameState} {sid : String} {ems : List Emission}
    (hinv : ServerInv gs) (h : handlePlayerReady gs sid = (gs', ems)) :
    ServerInv gs' := by
  unfold handlePlayerReady at h
  cases h1 : lookupA gs.players sid with
  | none =>
    rw [h1] at h
    cases h
    exact hinv
  | some player =>
    rw [h1] at h
    dsimp only at h
    cases h2 : lookupA gs.socketToRoom sid with
    | none =>
      rw [h2] at h
      cases h
      exact hinv
    | some roomId =>
      rw [h2] at h
      dsimp only at h
      cases h3 : lookupA gs.rooms roomId with
      | none =>
        rw [h3] at h
        cases h
        exact hinv
      | some room =>
        rw [h3] at h
        dsimp only at h
        cases h4 : player.characterId with
        | none =>
          rw [h4] at h
          cases h
          exact hinv
        | some c0 =>
          rw [h4] at h
          dsimp only at h
          cases h
          have hplayerMem : (sid, player) ∈ gs.players := mem_of_lookupA h1
          have hpid : player.id = sid := (hinv.playersWellFormed _ hplayerMem).1
          have hroomMem : (roomId, room) ∈ gs.rooms := mem_of_lookupA h3
          have hheld : ∃ ce ∈ room.selectedCharacters, ce.2 = sid := by
            obtain ⟨rid1, hrid1, room1, hroom1, ce, hce, hval⟩ :=
              hinv.charConsistent (sid, player) hplayerMem (by rw [h4]; rfl)
            rw [h2] at hrid1
            cases hrid1
            rw [h3] at hroom1
            cases hroom1
            exact ⟨ce, hce, hval⟩
          refine ⟨?_, ?_, ?_, ?_, ?_, ?_, ?_, ?_, ?_, ?_, ?_, ?_, ?_⟩ <;> (try dsimp only)
          · exact nodup_keys_setA _ _ _ hinv.roomsNodup
          · exact hinv.playersNodup
          · exact hinv.socketToRoomNodup
          · exact hinv.uidToSocketNodup
          · intro e he
            rcases mem_setA he with heq | ⟨hmem, _⟩
            · subst heq
              dsimp only [Room.addPlayer]
              exact nodup_keys_setA _ _ _ (hinv.roomPlayersNodup _ hroomMem)
            · exact hinv.roomPlayersNodup e hmem
          · intro e he
            rcases mem_setA he with heq | ⟨hmem, _⟩
            · subst heq
              dsimp only [Room.addPlayer]
              exact hinv.roomCharsNodup _ hroomMem
            · exact hinv.roomCharsNodup e hmem
          · intro e he
            rcases mem_setA he with heq | ⟨hmem, _⟩
            · subst heq
              dsimp only [Room.addPlayer]
              exact hinv.roomCharsValid _ hroomMem
            · exact hinv.roomCharsValid e hmem
          · intro e he
            rcases mem_setA he with heq | ⟨hmem, _⟩
            · subst heq
              dsimp only [Room.addPlayer]
              exact hinv.roomCharsPerPid _ hroomMem
            · exact hinv.roomCharsPerPid e hmem
          · intro e he pe hpe
            rcases mem_setA he with heq | ⟨hmem, _⟩
            · subst heq
              dsimp only [Room.addPlayer] at hpe
              rcases mem_setA hpe with heq2 | ⟨hmem2, _⟩
              · subst heq2
                dsimp only
                rw [hpid]
                exact hheld
              · exact hinv.roomPlayersHaveChar _ hroomMem pe hmem2
            · exact hinv.roomPlayersHaveChar e hmem pe hpe
          · intro e he pe hpe
            rcases mem_setA he with heq | ⟨hmem, _⟩
            · subst heq
              dsimp only [Room.addPlayer] at hpe
              rcases mem_setA hpe with heq2 | ⟨hmem2, _⟩
              · subst heq2
                exact ⟨rfl, (hinv.playersWellFormed _ hplayerMem).2⟩
              · exact hinv.roomPlayersWellFormed _ hroomMem pe hmem2
            · exact hinv.roomPlayersWellFormed e hmem pe hpe
          · intro e he
            rcases mem_setA he with heq | ⟨hmem, _⟩
            · subst heq
              dsimp only [Room.addPlayer]
              exact hinv.roomCapacity _ hroomMem
            · exact hinv.roomCapacity e hmem
          · exact hinv.playersWellFormed
          · intro pe hpe hsome
            obtain ⟨rid1, hrid1, room1, hroom1, ce, hce, hval⟩ :=
              hinv.charConsistent pe hpe hsome
            refine ⟨rid1, hrid1, ?_⟩
            by_cases hr : rid1 = roomId
            · subst hr
              rw [h3] at hroom1
              injection hroom1 with hrr
              subst hrr
              exact ⟨room.addPlayer player, lookupA_setA_self _ _ _, ce, hce, hval⟩
            · exact ⟨room1, by rw [lookupA_setA_ne _ _ _ _ hr]; exact hroom1, ce, hce, hval⟩

theorem removePlayer_parts (room : Room) (pid : String) :
    (room.removePlayer pid).1.players = eraseA room.players pid ∧
    (room.removePlayer pid).1.maxPlayers = room.maxPlayers ∧
    (room.removePlayer pid).1.selectedCharacters =
      (room.releaseCharacter pid).1.selectedCharacters := by
  unfold Room.removePlayer
  refine ⟨?_, ?_, rfl⟩
  · dsimp only
    rw [releaseCharacter_players]
  · dsimp only
    exact (releaseCharacter_static room pid).1

theorem inv_disconnect {gs gs' : GameState} {sid : String} {ems : List Emission}
    (hinv : ServerInv gs) (h : handleDisconnect gs sid = (gs', ems)) :
    ServerInv gs' := by
  unfold handleDisconnect at h
  dsimp only [GameState.leaveAllSocketRooms] at h
  cases h1 : lookupA gs.players sid with
  | none =>
    rw [h1] at h
    cases h
    refine ⟨?_, ?_, ?_, ?_, ?_, ?_, ?_, ?_, ?_, ?_, ?_, ?_, ?_⟩ <;> (try dsimp only)
    · exact hinv.roomsNodup
    · exact nodup_keys_eraseA _ _ hinv.playersNodup
    · exact nodup_keys_eraseA _ _ hinv.socketToRoomNodup
    · exact hinv.uidToSocketNodup
    · exact hinv.roomPlayersNodup
    · exact hinv.roomCharsNodup
    · exact hinv.roomCharsValid
    · exact hinv.roomCharsPerPid
    · exact hinv.roomPlayersHaveChar
    · exact hinv.roomPlayersWellFormed
    · exact hinv.roomCapacity
    · intro pe hpe
      exact hinv.playersWellFormed pe (mem_eraseA.mp hpe).1
    · intro pe hpe hsome
      obtain ⟨hmem, hne⟩ := mem_eraseA.mp hpe
      obtain ⟨rid1, hrid1, rest⟩ := hinv.charConsistent pe hmem hsome
      refine ⟨rid1, ?_, rest⟩
      rw [lookupA_eraseA, if_neg hne]
      exact hrid1
  | some player =>
    rw [h1] at h
    dsimp only at h
    cases h2 : lookupA gs.socketToRoom sid with
    | none =>
      rw [h2] at h
      cases h
      refine ⟨?_, ?_, ?_, ?_, ?_, ?_, ?_, ?_, ?_, ?_, ?_, ?_, ?_⟩ <;> (try dsimp only)
      · exact hinv.roomsNodup
      · exact nodup_keys_eraseA _ _ hinv.playersNodup
      · exact nodup_keys_eraseA _ _ hinv.socketToRoomNodup
      · exact hinv.uidToSocketNodup
      · exact hinv.roomPlayersNodup
      · exact hinv.roomCharsNodup
      · exact hinv.roomCharsValid
      · exact hinv.roomCharsPerPid
      · exact hinv.roomPlayersHaveChar
      · exact hinv.roomPlayersWellFormed
      · exact hinv.roomCapacity
      · intro pe hpe
        exact hinv.playersWellFormed pe (mem_eraseA.mp hpe).1
      · intro pe hpe hsome
        obtain ⟨hmem, hne⟩ := mem_eraseA.mp hpe
        obtain ⟨rid1, hrid1, rest⟩ := hinv.charConsistent pe hmem hsome
        refine ⟨rid1, ?_, rest⟩
        rw [lookupA_eraseA, if_neg hne]
        exact hrid1
    | some roomId =>
      rw [h2] at h
      dsimp only at h
      cases h3 : lookupA gs.rooms roomId with
      | none =>
        rw [h3] at h
        dsimp only at h
        cases h4 : player.firebaseUid with
        | none =>
          rw [h4] at h
          dsimp only at h
          cases h
          refine ⟨?_, ?_, ?_, ?_, ?_, ?_, ?_, ?_, ?_, ?_, ?_, ?_, ?_⟩ <;> (try dsimp only)
          · exact hinv.roomsNodup
          · exact nodup_keys_eraseA _ _ hinv.playersNodup
          · exact nodup_keys_eraseA _ _ hinv.socketToRoomNodup
          · exact hinv.uidToSocketNodup
          · exact hinv.roomPlayersNodup
          · exact hinv.roomCharsNodup
          · exact hinv.roomCharsValid
          · exact hinv.roomCharsPerPid
          · exact hinv.roomPlayersHaveChar
          · exact hinv.roomPlayersWellFormed
          · exact hinv.roomCapacity
          · intro pe hpe
            exact hinv.playersWellFormed pe (mem_eraseA.mp hpe).1
          · intro pe hpe hsome
            obtain ⟨hmem, hne⟩ := mem_eraseA.mp hpe
            obtain ⟨rid1, hrid1, rest⟩ := hinv.charConsistent pe hmem hsome
            refine ⟨rid1, ?_, rest⟩
            rw [lookupA_eraseA, if_neg hne]
            exact hrid1
        | some u =>
          rw [h4] at h
          dsimp only at h
          cases h
          refine ⟨?_, ?_, ?_, ?_, ?_, ?_, ?_, ?_, ?_, ?_, ?_, ?_, ?_⟩ <;> (try dsimp only)
          · exact hinv.roomsNodup
          · exact nodup_keys_eraseA _ _ hinv.playersNodup
          · exact nodup_keys_eraseA _ _ hinv.socketToRoomNodup
          · exact nodup_keys_eraseA _ _ hinv.uidToSocketNodup
          · exact hinv.roomPlayersNodup
          · exact hinv.roomCharsNodup
          · exact hinv.roomCharsValid
          · exact hinv.roomCharsPerPid
          · exact hinv.roomPlayersHaveChar
          · exact hinv.roomPlayersWellFormed
          · exact hinv.roomCapacity
          · intro pe hpe
            exact hinv.playersWellFormed pe (mem_eraseA.mp hpe).1
          · intro pe hpe hsome
            obtain ⟨hmem, hne⟩ := mem_eraseA.mp hpe
            obtain ⟨rid1, hrid1, rest⟩ := hinv.charConsistent pe hmem hsome
            refine ⟨rid1, ?_, rest⟩
            rw [lookupA_eraseA, if_neg hne]
            exact hrid1
      | some room =>
        rw [h3] at h
        dsimp only at h
        have hroomMem : (roomId, room) ∈ gs.rooms := mem_of_lookupA h3
        have hndsc : (room.selectedCharacters.map Prod.fst).Nodup :=
          hinv.roomCharsNodup _ hroomMem
        obtain ⟨hrp, hrm, hrsc⟩ := removePlayer_parts room sid
        have hroomInv : ∀ e ∈ setA gs.rooms roomId (room.removePlayer sid).1,
            ((e.2.players.map Prod.fst).Nodup ∧
             (e.2.selectedCharacters.map Prod.fst).Nodup ∧
             (∀ ce ∈ e.2.selectedCharacters, ce.1 ∈ AVAILABLE_CHARACTERS) ∧
             (∀ pid : String,
               (e.2.selectedCharacters.filter (fun ce => ce.2 = pid)).length ≤ 1) ∧
             (∀ pe ∈ e.2.players, ∃ ce ∈ e.2.selectedCharacters, ce.2 = pe.1) ∧
             (∀ pe ∈ e.2.players, pe.2.id = pe.1 ∧ inBoundsXZ pe.2.position) ∧
             e.2.maxPlayers = MAX_PLAYERS_PER_ROOM) := by
          intro e he
          rcases mem_setA he with heq | ⟨hmem, _⟩
          · subst heq
            dsimp only
            rw [hrp, hrm, hrsc]
            refine ⟨nodup_keys_eraseA _ _ (hinv.roomPlayersNodup _ hroomMem),
              release_nodup_keys room sid hndsc, ?_, ?_, ?_, ?_,
              hinv.roomCapacity _ hroomMem⟩
            · intro ce hce
              exact hinv.roomCharsValid _ hroomMem ce (mem_of_mem_release hce)
            · intro pid
              calc ((room.releaseCharacter sid).1.selectedCharacters.filter
                      (fun ce => ce.2 = pid)).length
                  ≤ (room.selectedCharacters.filter (fun ce => ce.2 = pid)).length :=
                    List.Sublist.length_le (release_filter_sublist room sid pid)
                _ ≤ 1 := hinv.roomCharsPerPid _ hroomMem pid
            · intro pe hpe
              obtain ⟨hmem2, hne2⟩ := mem_eraseA.mp hpe
              obtain ⟨ce, hce, hval⟩ := hinv.roomPlayersHaveChar _ hroomMem pe hmem2
              exact ⟨ce, mem_release_of_mem hndsc hce (by rw [hval]; exact hne2), hval⟩
            · intro pe hpe
              exact hinv.roomPlayersWellFormed _ hroomMem pe (mem_eraseA.mp hpe).1
          · exact ⟨hinv.roomPlayersNodup e hmem, hinv.roomCharsNodup e hmem,
              hinv.roomCharsValid e hmem, hinv.roomCharsPerPid e hmem,
              hinv.roomPlayersHaveChar e hmem, hinv.roomPlayersWellFormed e hmem,
              hinv.roomCapacity e hmem⟩
        have hcc : ∀ pe ∈ eraseA gs.players sid, pe.2.characterId.isSome = true →
            ∃ rid : String, lookupA (eraseA gs.socketToRoom sid) pe.1 = some rid ∧
              ∃ room2 : Room,
                lookupA (setA gs.rooms roomId (room.removePlayer sid).1) rid = some room2 ∧
                ∃ ce ∈ room2.selectedCharacters, ce.2 = pe.1 := by
          intro pe hpe hsome
          obtain ⟨hmem, hne⟩ := mem_eraseA.mp hpe
          obtain ⟨rid1, hrid1, room1, hroom1, ce, hce, hval⟩ :=
            hinv.charConsistent pe hmem hsome
          refine ⟨rid1, by rw [lookupA_eraseA, if_neg hne]; exact hrid1, ?_⟩
          by_cases hr : rid1 = roomId
          · subst hr
            rw [h3] at hroom1
            injection hroom1 with hrr
            subst hrr
            refine ⟨(room.removePlayer sid).1, lookupA_setA_self _ _ _, ?_⟩
            rw [hrsc]
            exact ⟨ce, mem_release_of_mem hndsc hce (by rw [hval]; exact hne), hval⟩
          · exact ⟨room1, by rw [lookupA_setA_ne _ _ _ _ hr]; exact hroom1, ce, hce, hval⟩
        cases h4 : player.firebaseUid with
        | none =>
          rw [h4] at h
          dsimp only at h
          cases h
          refine ⟨?_, ?_, ?_, ?_, ?_, ?_, ?_, ?_, ?_, ?_, ?_, ?_, ?_⟩ <;> (try dsimp only)
          · exact nodup_keys_setA _ _ _ hinv.roomsNodup
          · exact nodup_keys_eraseA _ _ hinv.playersNodup
          · exact nodup_keys_eraseA _ _ hinv.socketToRoomNodup
          · exact hinv.uidToSocketNodup
          · exact fun e he => (hroomInv e he).1
          · exact fun e he => (hroomInv e he).2.1
          · exact fun e he => (hroomInv e he).2.2.1
          · exact fun e he => (hroomInv e he).2.2.2.1
          · exact fun e he => (hroomInv e he).2.2.2.2.1
          · exact fun e he => (hroomInv e he).2.2.2.2.2.1
          · exact fun e he => (hroomInv e he).2.2.2.2.2.2
          · intro pe hpe
            exact hinv.playersWellFormed pe (mem_eraseA.mp hpe).1
          · exact hcc
        | some u =>
          rw [h4] at h
          dsimp only at h
          cases h
          refine ⟨?_, ?_, ?_, ?_, ?_, ?_, ?_, ?_, ?_, ?_, ?_, ?_, ?_⟩ <;> (try dsimp only)
          · exact nodup_keys_setA _ _ _ hinv.roomsNodup
          · exact nodup_keys_eraseA _ _ hinv.playersNodup
          · exact nodup_keys_eraseA _ _ hinv.socketToRoomNodup
          · exact nodup_keys_eraseA _ _ hinv.uidToSocketNodup
          · exact fun e he => (hroomInv e he).1
          · exact fun e he => (hroomInv e he).2.1
          · exact fun e he => (hroomInv e he).2.2.1
          · exact fun e he => (hroomInv e he).2.2.2.1
          · exact fun e he => (hroomInv e he).2.2.2.2.1
          · exact fun e he => (hroomInv e he).2.2.2.2.2.1
          · exact fun e he => (hroomInv e he).2.2.2.2.2.2
          · intro pe hpe
            exact hinv.playersWellFormed pe (mem_eraseA.mp hpe).1
          · exact hcc

theorem keys_mapSnd {α β : Type} (l : SMap α) (g : α → β) :
    (l.map (fun e => (e.1, g e.2))).map Prod.fst = l.map Prod.fst := by
  induction l with
  | nil => rfl
  | cons e t ih => simp only [List.map_cons, ih]

theorem keys_clearCollected (m : SMap Player) (collected : List String) :
    (clearCollected m collected).map Prod.fst = m.map Prod.fst := by
  induction m with
  | nil => rfl
  | cons e t ih =>
    simp only [clearCollected, List.map_cons] at ih ⊢
    by_cases hc : e.1 ∈ collected
    · rw [if_pos hc]
      simp only [ih]
    · rw [if_neg hc]
      simp only [ih]

theorem mem_clearCollected {m : SMap Player} {collected : List String}
    {e : String × Player} (h : e ∈ clearCollected m collected) :
    (∃ q ∈ m, e = (q.1, { q.2 with needsBroadcast := false })) ∨ e ∈ m := by
  simp only [clearCollected, List.mem_map] at h
  obtain ⟨q, hq, heq⟩ := h
  by_cases hc : q.1 ∈ collected
  · rw [if_pos hc] at heq
    exact Or.inl ⟨q, hq, heq.symm⟩
  · rw [if_neg hc] at heq
    exact Or.inr (heq ▸ hq)

theorem lookupA_clearCollected (m : SMap Player) (collected : List String) (k : String) :
    lookupA (clearCollected m collected) k =
      if k ∈ collected then
        (lookupA m k).map (fun p => { p with needsBroadcast := false })
      else lookupA m k := by
  induction m with
  | nil => by_cases h : k ∈ collected <;> simp [lookupA, clearCollected, h]
  | cons e t ih =>
    simp only [clearCollected, List.map_cons] at ih ⊢
    by_cases hek : e.1 = k
    · subst hek
      by_cases hc : e.1 ∈ collected
      · simp [lookupA_cons, hc, ih]
      · simp [lookupA_cons, hc, ih]
    · by_cases hc : e.1 ∈ collected <;> by_cases hkc : k ∈ collected <;>
        simp [lookupA_cons, hek, hc, hkc, ih]

theorem tickRoom_parts (room : Room) :
    (tickRoom room).1.selectedCharacters = room.selectedCharacters ∧
    (tickRoom room).1.maxPlayers = room.maxPlayers ∧
    (tickRoom room).1.players = clearCollected room.players (tickRoom room).2.1 := by
  unfold tickRoom
  exact ⟨rfl, rfl, rfl⟩

theorem inv_tick {gs gs' : GameState} {ems : List Emission}
    (hinv : ServerInv gs) (h : tick gs = (gs', ems)) : ServerInv gs' := by
  unfold tick at h
  dsimp only at h
  cases h
  refine ⟨?_, ?_, ?_, ?_, ?_, ?_, ?_, ?_, ?_, ?_, ?_, ?_, ?_⟩ <;> (try dsimp only)
  · rw [List.map_map, List.map_map]
    have hcomp : (Prod.fst ∘ fun e : String × (Room × List String × List Emission) =>
        (e.1, e.2.1)) ∘ (fun e : String × Room => (e.1, tickRoom e.2)) = Prod.fst := rfl
    rw [hcomp]
    exact hinv.roomsNodup
  · rw [keys_clearCollected]
    exact hinv.playersNodup
  · exact hinv.socketToRoomNodup
  · exact hinv.uidToSocketNodup
  all_goals
    (try (intro e he
          rw [List.map_map] at he
          simp only [List.mem_map, Function.comp] at he))
  · obtain ⟨e0, he0, heq⟩ := he
    rw [← heq]
    dsimp only
    rw [(tickRoom_parts e0.2).2.2, keys_clearCollected]
    exact hinv.roomPlayersNodup e0 he0
  · obtain ⟨e0, he0, heq⟩ := he
    rw [← heq]
    dsimp only
    rw [(tickRoom_parts e0.2).1]
    exact hinv.roomCharsNodup e0 he0
  · obtain ⟨e0, he0, heq⟩ := he
    rw [← heq]
    dsimp only
    rw [(tickRoom_parts e0.2).1]
    exact hinv.roomCharsValid e0 he0
  · obtain ⟨e0, he0, heq⟩ := he
    rw [← heq]
    dsimp only
    rw [(tickRoom_parts e0.2).1]
    exact hinv.roomCharsPerPid e0 he0
  · obtain ⟨e0, he0, heq⟩ := he
    rw [← heq]
    dsimp only
    intro pe hpe
    rw [(tickRoom_parts e0.2).2.2] at hpe
    rw [(tickRoom_parts e0.2).1]
    rcases mem_clearCollected hpe with ⟨q, hq, heq2⟩ | hpe2
    · subst heq2
      exact hinv.roomPlayersHaveChar e0 he0 q hq
    · exact hinv.roomPlayersHaveChar e0 he0 pe hpe2
  · obtain ⟨e0, he0, heq⟩ := he
    rw [← heq]
    dsimp only
    intro pe hpe
    rw [(tickRoom_parts e0.2).2.2] at hpe
    rcases mem_clearCollected hpe with ⟨q, hq, heq2⟩ | hpe2
    · subst heq2
      exact hinv.roomPlayersWellFormed e0 he0 q hq
    · exact hinv.roomPlayersWellFormed e0 he0 pe hpe2
  · obtain ⟨e0, he0, heq⟩ := he
    rw [← heq]
    dsimp only
    rw [(tickRoom_parts e0.2).2.1]
    exact hinv.roomCapacity e0 he0
  · intro pe hpe
    rcases mem_clearCollected hpe with ⟨q, hq, heq2⟩ | hpe2
    · subst heq2
      exact hinv.playersWellFormed q hq
    · exact hinv.playersWellFormed pe hpe2
  · intro pe hpe hsome
    have hmain : ∃ q ∈ gs.players, pe.1 = q.1 ∧ pe.2.characterId = q.2.characterId := by
      rcases mem_clearCollected hpe with ⟨q, hq, heq2⟩ | hpe2
      · exact ⟨q, hq, by rw [heq2], by rw [heq2]⟩
      · exact ⟨pe, hpe2, rfl, rfl⟩
    obtain ⟨q, hq, hqid, hqchar⟩ := hmain
    rw [hqchar] at hsome
    obtain ⟨rid1, hrid1, room1, hroom1, ce, hce, hval⟩ :=
      hinv.charConsistent q hq hsome
    rw [hqid]
    refine ⟨rid1, hrid1, ?_⟩
    rw [List.map_map]
    have hcomp : ((fun e : String × (Room × List String × List Emission) =>
        (e.1, e.2.1)) ∘ (fun e : String × Room => (e.1, tickRoom e.2))) =
        (fun e : String × Room => (e.1, (tickRoom e.2).1)) := rfl
    rw [hcomp]
    have hlk := lookupA_mapSnd gs.rooms (fun r => (tickRoom r).1) rid1
    refine ⟨(tickRoom room1).1, ?_, ?_⟩
    · rw [hlk, hroom1]
      rfl
    · rw [(tickRoom_parts room1).1]
      exact ⟨ce, hce, hval⟩

theorem inv_step {gs gs' : GameState} (hinv : ServerInv gs) (hs : Step gs gs') :
    ServerInv gs' := by
  cases hs with
  | join sid username uid roomId sp gs2 ems hx₁ hx₂ hy hz₁ hz₂ h =>
    refine inv_join hinv ?_ h
    unfold inBoundsXZ WORLD_MIN_X WORLD_MAX_X WORLD_MIN_Z WORLD_MAX_Z
    constructor
    · linarith
    constructor
    · linarith
    constructor
    · linarith
    · linarith
  | select sid characterId gs2 ems h => exact inv_select hinv h
  | ready sid gs2 ems h => exact inv_ready hinv h
  | move sid data gs2 ems h => exact inv_move hinv h
  | worldChange sid target gs2 ems h => exact inv_worldChange hinv h
  | animation sid a gs2 ems h => exact inv_animation hinv h
  | chat sid message gs2 ems h => exact inv_chat hinv h
  | disconnect sid gs2 ems h => exact inv_disconnect hinv h
  | tickStep gs2 ems h => exact inv_tick hinv h

theorem inv_reachable {gs : GameState} (h : Reachable gs) : ServerInv gs := by
  induction h with
  | init => exact inv_init
  | step hr hs ih => exact inv_step ih hs

theorem count_key_le_one {α : Type} (l : SMap α) (c : String)
    (hnd : (l.map Prod.fst).Nodup) :
    (l.filter (fun e => e.1 = c)).length ≤ 1 := by
  induction l with
  | nil => simp
  | cons e t ih =>
    rw [List.map_cons, List.nodup_cons] at hnd
    rw [List.filter_cons]
    by_cases he : e.1 = c
    · rw [if_pos (by simpa using he)]
      have hnil : t.filter (fun q => q.1 = c) = [] := by
        rw [List.filter_eq_nil_iff]
        intro a ha hac
        rw [decide_eq_true_eq] at hac
        exact hnd.1 (he ▸ hac ▸ List.mem_map_of_mem Prod.fst ha)
      rw [hnil]
      simp
    · rw [if_neg (by simpa using he)]
      exact ih hnd.2

/-- C2 (amended): the number of ready sessions in any reachable room never
exceeds its capacity — in fact it never exceeds the six available
characters, since every ready session holds a character slot.  (The
ready-transition itself performs no capacity check; `Room.isFull`, checked
at join, counts only the ready sessions in `Room.players`, so pending
sessions do not count toward capacity.) -/
theorem ready_sessions_le_capacity (gs : GameState) (rid : String) (room : Room)
    (hreach : Reachable gs) (hroom : lookupA gs.rooms rid = some room) :
    room.players.length ≤ 6 ∧ room.players.length ≤ room.maxPlayers := by
  have hinv := inv_reachable hreach
  have hmem : (rid, room) ∈ gs.rooms := mem_of_lookupA hroom
  have h1 : room.players.length ≤ room.selectedCharacters.length := by
    have hps := hinv.roomPlayersNodup _ hmem
    have hle := length_le_of_assigned (room.players.map Prod.fst)
      room.selectedCharacters hps ?_
    · simpa using hle
    · intro pid hpid
      simp only [List.mem_map] at hpid
      obtain ⟨pe, hpe, hk⟩ := hpid
      obtain ⟨ce, hce, hval⟩ := hinv.roomPlayersHaveChar _ hmem pe hpe
      exact ⟨ce, hce, hk ▸ hval⟩
  have h2 : room.selectedCharacters.length ≤ 6 :=
    length_le_six_of_keys _ (hinv.roomCharsNodup _ hmem)
      (fun e he => hinv.roomCharsValid _ hmem e he)
  have h3 : room.maxPlayers = MAX_PLAYERS_PER_ROOM := hinv.roomCapacity _ hmem
  refine ⟨le_trans h1 h2, ?_⟩
  rw [h3]
  unfold MAX_PLAYERS_PER_ROOM
  omega

theorem ready_sessions_le_capacity_witness :
    (Room.new "hawkins-1" MAX_PLAYERS_PER_ROOM).players.length ≤ 6 ∧
    (Room.new "hawkins-1" MAX_PLAYERS_PER_ROOM).players.length ≤
      (Room.new "hawkins-1" MAX_PLAYERS_PER_ROOM).maxPlayers :=
  ready_sessions_le_capacity initGameServer "hawkins-1"
    (Room.new "hawkins-1" MAX_PLAYERS_PER_ROOM) Reachable.init rfl

/-- A pending session holding "eleven" in a room that is already at
capacity (30 ready sessions, all in the other partition so the reply
roster stays small). -/
def c2fillers : SMap Player :=
  (List.range 30).map (fun i =>
    ("p" ++ toString i,
     { Player.new ("p" ++ toString i) "bot" ⟨0, 0, 0⟩ with worldState := "upsideDown" }))

def c2room : Room :=
  { id := "r", maxPlayers := 30, players := c2fillers,
    selectedCharacters := [("eleven", "q")] }

def c2gs : GameState :=
  { rooms := [("r", c2room)]
    players := [("q", { Player.new "q" "Q" ⟨0, 0, 0⟩ with characterId := some "eleven" })]
    socketToRoom := [("q", "r")]
    uidToSocket := []
    socketRooms := [("r", ["q"])] }

/-- C2 counterexample: the room is full (`isFull` is true at 30 ready
sessions), yet promoting the pending session to ready is NOT rejected:
`handlePlayerReady` emits `player:joined` (no error) and the room grows to
31 ready sessions, above its capacity of 30.  Capacity is only ever
checked in `handlePlayerJoin`. -/
theorem ready_no_capacity_check :
    c2room.isFull = true ∧
    (lookupA (handlePlayerReady c2gs "q").1.rooms "r").map
      (fun rm => rm.players.length) = some 31 ∧
    (handlePlayerReady c2gs "q").2 =
      [("q", ServerMsg.playerJoined "q" none
        { id := "q", username := "Q", position := ⟨0, 0, 0⟩, rotation := 0,
          worldState := "normal", animation := "idle", characterId := some "eleven" }
        [])] := by
  refine ⟨by decide, ?_, ?_⟩ <;> rfl

/-- C3: at-most-one ownership in every reachable room, in both directions,
and atomic reassignment: a successful selectCharacter leaves the caller
holding exactly the one new character (the old one is released within the
same operation; the handlers run to completion single-threadedly, so no
intermediate state is observable). -/
theorem character_ownership (gs : GameState) (rid : String) (room : Room)
    (hreach : Reachable gs) (hroom : lookupA gs.rooms rid = some room) :
    (∀ c : String, (room.selectedCharacters.filter (fun ce => ce.1 = c)).length ≤ 1) ∧
    (∀ pid : String, (room.selectedCharacters.filter (fun ce => ce.2 = pid)).length ≤ 1) ∧
    (∀ pid c : String, ∀ room' : Room,
      room.selectCharacter pid c = (room', SelectResult.ok) →
      room'.selectedCharacters.filter (fun ce => ce.2 = pid) = [(c, pid)]) := by
  have hinv := inv_reachable hreach
  have hmem : (rid, room) ∈ gs.rooms := mem_of_lookupA hroom
  refine ⟨?_, ?_, ?_⟩
  · intro c
    exact count_key_le_one _ c (hinv.roomCharsNodup _ hmem)
  · intro pid
    exact hinv.roomCharsPerPid _ hmem pid
  · intro pid c room' hsel
    obtain ⟨hav, hfree, hpl, hmax, hsc⟩ := selectCharacter_ok hsel
    rw [hsc, List.filter_append]
    have hnone : ((room.releaseCharacter pid).1.selectedCharacters.filter
        (fun ce => ce.2 = pid)) = [] := by
      rw [List.filter_eq_nil_iff]
      intro a ha
      have h5 := release_removes (hinv.roomCharsPerPid _ hmem pid) a ha
      simpa using h5
    rw [hnone]
    simp

theorem character_ownership_witness :
    ((Room.new "hawkins-1" MAX_PLAYERS_PER_ROOM).selectCharacter "p1" "eleven").1.selectedCharacters.filter
      (fun ce => ce.2 = "p1") = [("eleven", "p1")] := by
  have h := (character_ownership initGameServer "hawkins-1"
    (Room.new "hawkins-1" MAX_PLAYERS_PER_ROOM) Reachable.init rfl).2.2 "p1" "eleven"
    ((Room.new "hawkins-1" MAX_PLAYERS_PER_ROOM).selectCharacter "p1" "eleven").1 rfl
  exact h

/-- C8: in every reachable state, every registered session's position
satisfies the world bounds on x and z.  Spawn positions start inside the
bounds and `handlePlayerMove` clamps the candidate position into
WORLD_BOUNDS before the significance check and before applying it
(see `clampPosition` in `handlePlayerMove`). -/
theorem position_bounds (gs : GameState) (pid : String) (p : Player)
    (hreach : Reachable gs) (hp : lookupA gs.players pid = some p) :
    -500 ≤ p.position.x ∧ p.position.x ≤ 500 ∧
    -500 ≤ p.position.z ∧ p.position.z ≤ 500 := by
  have hinv := inv_reachable hreach
  have hb := (hinv.playersWellFormed (pid, p) (mem_of_lookupA hp)).2
  unfold inBoundsXZ WORLD_MIN_X WORLD_MAX_X WORLD_MIN_Z WORLD_MAX_Z at hb
  exact ⟨hb.1, hb.2.1, hb.2.2.1, hb.2.2.2⟩

def c8gs : GameState :=
  (handlePlayerJoin initGameServer "s1" "Max" none "hawkins-1" ⟨1, 0, 1⟩).1

theorem c8gs_reachable : Reachable c8gs :=
  Reachable.step Reachable.init
    (Step.join initGameServer "s1" "Max" none "hawkins-1" ⟨1, 0, 1⟩ c8gs
      (handlePlayerJoin initGameServer "s1" "Max" none "hawkins-1" ⟨1, 0, 1⟩).2
      (by norm_num) (by norm_num) rfl (by norm_num) (by norm_num) rfl)

theorem position_bounds_witness :
    -500 ≤ (Player.new "s1" "Max" ⟨1, 0, 1⟩).position.x ∧
    (Player.new "s1" "Max" ⟨1, 0, 1⟩).position.x ≤ 500 ∧
    -500 ≤ (Player.new "s1" "Max" ⟨1, 0, 1⟩).position.z ∧
    (Player.new "s1" "Max" ⟨1, 0, 1⟩).position.z ≤ 500 :=
  position_bounds c8gs "s1" (Player.new "s1" "Max" ⟨1, 0, 1⟩) c8gs_reachable rfl

/-- C7: a move whose post-clamp deltas are all at or below the thresholds
and whose animation is unchanged (or absent/empty) leaves the entire
server state — in particular the session's position, rotation, animation
and dirty flag — exactly as it was, and emits nothing. -/
theorem move_threshold_suppression (gs : GameState) (sid : String) (p : Player)
    (data : MoveData) (hp : lookupA gs.players sid = some p)
    (hpos : ∀ np : Position, data.position = some np →
      |p.position.x - (clampPosition np).x| ≤ POSITION_THRESHOLD ∧
      |p.position.y - (clampPosition np).y| ≤ POSITION_THRESHOLD ∧
      |p.position.z - (clampPosition np).z| ≤ POSITION_THRESHOLD)
    (hrot : ∀ r : ℚ, data.rotation = some r → |p.rotation - r| ≤ ROTATION_THRESHOLD)
    (hanim : ∀ a : String, data.animation = some a → a = "" ∨ p.animation = a) :
    handlePlayerMove gs sid data = (gs, []) := by
  unfold handlePlayerMove
  rw [hp]
  dsimp only
  have h₁ : (match data.position.map clampPosition with
      | some np => p.hasPositionChanged np POSITION_THRESHOLD
      | none => false) = false := by
    cases hd : data.position with
    | none => rfl
    | some np =>
      simp only [Option.map_some']
      obtain ⟨ha, hb, hc⟩ := hpos np hd
      unfold Player.hasPositionChanged
      rw [decide_eq_false_iff_not]
      push_neg
      exact ⟨ha, hb, hc⟩
  have h₂ : (match data.rotation with
      | some nr => p.hasRotationChanged nr ROTATION_THRESHOLD
      | none => false) = false := by
    cases hd : data.rotation with
    | none => rfl
    | some nr =>
      unfold Player.hasRotationChanged
      rw [decide_eq_false_iff_not]
      exact not_lt.mpr (hrot nr hd)
  have h₃ : (truthyStr data.animation &&
      match data.animation with
      | some a => p.animation ≠ a
      | none => true) = false := by
    cases hd : data.animation with
    | none => rfl
    | some a =>
      rcases hanim a hd with he | he
      · subst he
        rfl
      · subst he
        simp [truthyStr]
  rw [h₁, h₂, h₃]
  simp

theorem move_threshold_suppression_witness :
    handlePlayerMove c8gs "s1"
      { position := some ⟨1, 0, 1⟩, rotation := some 0, animation := some "idle" } =
      (c8gs, []) := by
  refine move_threshold_suppression c8gs "s1" (Player.new "s1" "Max" ⟨1, 0, 1⟩)
    _ rfl ?_ ?_ ?_
  · intro np h
    cases h
    refine ⟨?_, ?_, ?_⟩ <;>
      norm_num [Player.new, clampPosition, POSITION_THRESHOLD, WORLD_MIN_X,
        WORLD_MAX_X, WORLD_MIN_Z, WORLD_MAX_Z, min_def, max_def]
  · intro r h
    cases h
    norm_num [Player.new, ROTATION_THRESHOLD]
  · intro a h
    cases h
    exact Or.inr rfl

theorem eraseA_eq_self {α : Type} {l : SMap α} {k : String}
    (h : lookupA l k = none) : eraseA l k = l := by
  unfold eraseA
  rw [List.filter_eq_self]
  intro e he
  have := lookupA_eq_none_iff.mp h e he
  simpa using this

theorem notMem_filtered {l : SMap (List String)} {sid : String} :
    ∀ e ∈ l.map (fun q => (q.1, q.2.filter (fun m => m ≠ sid))), sid ∉ e.2 := by
  intro e he hmem
  simp only [List.mem_map] at he
  obtain ⟨q, hq, heq⟩ := he
  rw [← heq] at hmem
  have hcond := (List.mem_filter.mp hmem).2
  simp at hcond

/-- After a disconnect, the socket id is gone from the player map, the
socket-to-room map, and every socket.io room membership list. -/
theorem disconnect_removes {gs gs' : GameState} {sid : String} {ems : List Emission}
    (h : handleDisconnect gs sid = (gs', ems)) :
    lookupA gs'.players sid = none ∧ lookupA gs'.socketToRoom sid = none ∧
    ∀ e ∈ gs'.socketRooms, sid ∉ e.2 := by
  unfold handleDisconnect at h
  dsimp only [GameState.leaveAllSocketRooms] at h
  cases h1 : lookupA gs.players sid with
  | none =>
    rw [h1] at h
    cases h
    refine ⟨?_, ?_, notMem_filtered⟩ <;> (rw [lookupA_eraseA, if_pos rfl])
  | some player =>
    rw [h1] at h
    dsimp only at h
    cases h2 : lookupA gs.socketToRoom sid with
    | none =>
      rw [h2] at h
      cases h
      refine ⟨?_, ?_, notMem_filtered⟩ <;> (rw [lookupA_eraseA, if_pos rfl])
    | some roomId =>
      rw [h2] at h
      dsimp only at h
      cases h3 : lookupA gs.rooms roomId with
      | none =>
        rw [h3] at h
        dsimp only at h
        cases h4 : player.firebaseUid with
        | none =>
          rw [h4] at h
          dsimp only at h
          cases h
          refine ⟨?_, ?_, notMem_filtered⟩ <;> (rw [lookupA_eraseA, if_pos rfl])
        | some u =>
          rw [h4] at h
          dsimp only at h
          cases h
          refine ⟨?_, ?_, notMem_filtered⟩ <;> (rw [lookupA_eraseA, if_pos rfl])
      | some room =>
        rw [h3] at h
        dsimp only at h
        cases h4 : player.firebaseUid with
        | none =>
          rw [h4] at h
          dsimp only at h
          cases h
          refine ⟨?_, ?_, notMem_filtered⟩ <;> (rw [lookupA_eraseA, if_pos rfl])
        | some u =>
          rw [h4] at h
          dsimp only at h
          cases h
          refine ⟨?_, ?_, notMem_filtered⟩ <;> (rw [lookupA_eraseA, if_pos rfl])

/-- C9: running the disconnect path a second time after the session has
already been removed is a complete no-op: the state is unchanged and no
second `player:left` or `character:stateChanged` (or any other) message is
emitted. -/
theorem disconnect_idempotent (gs gs' : GameState) (sid : String) (ems : List Emission)
    (h : handleDisconnect gs sid = (gs', ems)) :
    handleDisconnect gs' sid = (gs', []) := by
  obtain ⟨hp, hs, hr⟩ := disconnect_removes h
  unfold handleDisconnect
  have hmap : gs'.socketRooms.map (fun e => (e.1, e.2.filter (fun m => m ≠ sid))) =
      gs'.socketRooms := by
    have : ∀ e ∈ gs'.socketRooms, (e.1, e.2.filter (fun m => m ≠ sid)) = e := by
      intro e he
      have hfe : e.2.filter (fun m => m ≠ sid) = e.2 := by
        rw [List.filter_eq_self]
        intro m hm
        have : m ≠ sid := fun hcontra => (hr e he) (hcontra ▸ hm)
        simpa using this
      rw [hfe]
    calc gs'.socketRooms.map (fun e => (e.1, e.2.filter (fun m => m ≠ sid)))
        = gs'.socketRooms.map id := List.map_congr_left this
      _ = gs'.socketRooms := List.map_id _
  have hleave : gs'.leaveAllSocketRooms sid = gs' := by
    unfold GameState.leaveAllSocketRooms
    rw [hmap]
  rw [hleave]
  dsimp only
  rw [hp, eraseA_eq_self hp, eraseA_eq_self hs]

theorem disconnect_idempotent_witness :
    handleDisconnect (handleDisconnect c8gs "s1").1 "s1" =
      ((handleDisconnect c8gs "s1").1, []) :=
  disconnect_idempotent c8gs (handleDisconnect c8gs "s1").1 "s1"
    (handleDisconnect c8gs "s1").2 rfl

/-- The world-state flip commutes with the partition queries: because the
switching session is excluded from both rosters by the id filter, the
post-mutation partitions (which the source computes) coincide with the
pre-state partitions with the caller filtered out. -/
theorem worldChange_partition (players : SMap Player) (sid target ws : String)
    (hids : ∀ e ∈ players, e.2.id = e.1) :
    (((mapValA players sid (fun q => { q with worldState := target })).map
        (fun e => e.2)).filter (fun q => q.worldState = ws)).filter
      (fun q => q.id ≠ sid) =
    ((players.map (fun e => e.2)).filter (fun q => q.worldState = ws)).filter
      (fun q => q.id ≠ sid) := by
  induction players with
  | nil => rfl
  | cons e t ih =>
    have hids_t : ∀ q ∈ t, q.2.id = q.1 := fun q hq => hids q (List.mem_cons_of_mem e hq)
    have hide : e.2.id = e.1 := hids e (List.mem_cons_self e t)
    have iht := ih hids_t
    by_cases hes : e.1 = sid
    · have hid2 : e.2.id = sid := hide.trans hes
      by_cases hws : e.2.worldState = ws <;> by_cases hts : target = ws <;>
        simp_all [mapValA, List.filter_cons]
    · have hid2 : e.2.id ≠ sid := fun hcon => hes (hide.symm.trans hcon)
      by_cases hws : e.2.worldState = ws <;>
        simp_all [mapValA, List.filter_cons]

/-- C5: worldChange semantics.  For a registered session in an existing
room (with well-formed player entries), a target equal to the current
state or outside the two valid values leaves the whole state unchanged and
emits nothing; otherwise the handler flips the session's worldState and —
synchronously, within the handler — notifies every other session of the
old partition that the caller left, every other session of the new
partition that the caller appeared, and replies to the caller with the
roster of the new partition. -/
theorem worldChange_semantics (gs : GameState) (sid target : String) (p : Player)
    (rid : String) (room : Room)
    (hp : lookupA gs.players sid = some p)
    (hr : lookupA gs.socketToRoom sid = some rid)
    (hroom : lookupA gs.rooms rid = some room)
    (hids : ∀ e ∈ room.players, e.2.id = e.1) :
    ((target ≠ "normal" ∧ target ≠ "upsideDown") ∨ target = p.worldState →
      handleWorldChange gs sid target = some (gs, [])) ∧
    ((target = "normal" ∨ target = "upsideDown") → target ≠ p.worldState →
      handleWorldChange gs sid target =
        some (gs.updatePlayerFields sid (fun q => { q with worldState := target }),
          (((room.getPlayersInWorldState p.worldState).filter
              (fun q => q.id ≠ sid)).map (fun q => (q.id, ServerMsg.playerLeft sid)))
          ++ (((room.getPlayersInWorldState target).filter
              (fun q => q.id ≠ sid)).map (fun q =>
                (q.id, ServerMsg.playerSpawned
                  (Player.serialize { p with worldState := target }))))
          ++ [(sid, ServerMsg.playerWorldChanged target
              (((room.getPlayersInWorldState target).filter
                  (fun q => q.id ≠ sid)).map Player.serialize))])) := by
  constructor
  · intro hno
    unfold handleWorldChange
    rw [hp]
    dsimp only
    rw [hr]
    dsimp only
    by_cases hv : target ≠ "normal" ∧ target ≠ "upsideDown"
    · rw [if_pos hv]
    · rw [if_neg hv]
      rcases hno with hno | hno
      · exact absurd hno hv
      · rw [if_pos hno.symm]
  · intro hval hne
    unfold handleWorldChange
    rw [hp]
    dsimp only
    rw [hr]
    dsimp only
    have hv : ¬(target ≠ "normal" ∧ target ≠ "upsideDown") := by
      rcases hval with hval | hval <;> simp [hval]
    rw [if_neg hv, if_neg (fun hcon => hne hcon.symm), hroom]
    dsimp only
    have hlook : lookupA
        (gs.updatePlayerFields sid (fun q => { q with worldState := target })).rooms rid =
        some { room with
          players := mapValA room.players sid
            (fun q => { q with worldState := target }) } := by
      unfold GameState.updatePlayerFields
      rw [hr]
      dsimp only
      rw [lookupA_mapValA, if_pos rfl, hroom]
      rfl
    rw [hlook]
    dsimp only
    unfold Room.getPlayersInWorldState
    dsimp only
    rw [worldChange_partition room.players sid target p.worldState hids,
        worldChange_partition room.players sid target target hids]

def c5room : Room := Room.new "hawkins-1" MAX_PLAYERS_PER_ROOM

theorem worldChange_semantics_witness :
    handleWorldChange c8gs "s1" "upsideDown" =
      some (c8gs.updatePlayerFields "s1" (fun q => { q with worldState := "upsideDown" }),
        [("s1", ServerMsg.playerWorldChanged "upsideDown" [])]) := by
  have h := (worldChange_semantics c8gs "s1" "upsideDown"
    (Player.new "s1" "Max" ⟨1, 0, 1⟩) "hawkins-1" c5room rfl rfl rfl
    (by intro e he; simp [c5room, Room.new] at he)).2 (Or.inr rfl) (by decide)
  simpa [c5room, Room.new, Room.getPlayersInWorldState] using h

def c4room : Room :=
  { id := "r", maxPlayers := 30, players := [],
    selectedCharacters := [("eleven", "p1")] }

/-- C4 counterexample: a session reselecting the very character it already
holds does NOT get a no-op success — `selectCharacter` only checks whether
the slot is taken, not by whom, so the caller's own reselection fails with
"Character already taken" (and the room is unchanged). -/
theorem reselect_own_character_fails :
    c4room.selectCharacter "p1" "eleven" =
      (c4room, SelectResult.err "Character already taken") := by
  decide

/-- C4 (amended): `selectCharacter` fails with InvalidCharacter exactly
when the characterId is outside the fixed six-character set; otherwise it
fails with AlreadyTaken exactly when ANY session — the caller included —
currently holds the character; it succeeds exactly when the character is
valid and free; and on every failure the room is left unchanged. -/
theorem selectCharacter_failure_semantics (room : Room) (pid c : String) :
    (((room.selectCharacter pid c).2 = SelectResult.err "Invalid character") ↔
      c ∉ AVAILABLE_CHARACTERS) ∧
    (((room.selectCharacter pid c).2 = SelectResult.err "Character already taken") ↔
      (c ∈ AVAILABLE_CHARACTERS ∧ (lookupA room.selectedCharacters c).isSome = true)) ∧
    (((room.selectCharacter pid c).2 = SelectResult.ok) ↔
      (c ∈ AVAILABLE_CHARACTERS ∧ lookupA room.selectedCharacters c = none)) ∧
    ((room.selectCharacter pid c).2 ≠ SelectResult.ok →
      (room.selectCharacter pid c).1 = room) := by
  unfold Room.selectCharacter
  by_cases hav : c ∈ AVAILABLE_CHARACTERS
  · rw [if_neg (by simpa using hav)]
    cases hl : lookupA room.selectedCharacters c with
    | some w =>
      rw [if_pos (by simp [hl])]
      refine ⟨?_, ?_, ?_, fun _ => rfl⟩
      · simp [hav]
      · simp [hav, hl]
      · simp [hl]
    | none =>
      rw [if_neg (by simp [hl])]
      refine ⟨?_, ?_, ?_, ?_⟩
      · simp [hav]
      · simp [hl]
      · simp [hav, hl]
      · intro hcon
        exact absurd rfl hcon
  · rw [if_pos (by simpa using hav)]
    refine ⟨?_, ?_, ?_, fun _ => rfl⟩
    · simp [hav]
    · simp [hav]
    · simp [hav]

theorem selectCharacter_failure_semantics_witness :
    (c4room.selectCharacter "p2" "eleven").2 =
      SelectResult.err "Character already taken" :=
  (selectCharacter_failure_semantics c4room "p2" "eleven").2.1.mpr
    ⟨by decide, by decide⟩

theorem ids_of_updates {players : List Player} {u : UpdateEntry}
    (h : u ∈ (players.filter (fun p => p.needsBroadcast)).map (fun p =>
      ({ id := p.id, position := p.position, rotation := p.rotation,
         animation := p.animation } : UpdateEntry))) :
    u.id ∈ players.map Player.id := by
  simp only [List.mem_map, List.mem_filter] at h
  obtain ⟨q, ⟨hq, _⟩, heq⟩ := h
  rw [← heq]
  exact List.mem_map_of_mem Player.id hq

/-- C6 (amended): on each partition scan, exactly the dirty sessions are
collected into the batch (one entry each, holding their final state), all
dirty flags are cleared, a member receives the batch with its own entry
filtered out exactly when that filtered batch is non-empty, every emitted
message has that shape, and an empty batch emits nothing. -/
theorem broadcast_tick_batching (players : List Player)
    (hnd : (players.map Player.id).Nodup) :
    ((broadcastUpdates players).1 =
      players.map (fun p => { p with needsBroadcast := false })) ∧
    (∀ s ∈ players, (broadcastUpdates players).2.1.filter (fun u => u.id = s.id) =
      if s.needsBroadcast then
        [{ id := s.id, position := s.position, rotation := s.rotation,
           animation := s.animation }] else []) ∧
    (∀ r ∈ players,
      ((r.id, ServerMsg.playersUpdate
          ((broadcastUpdates players).2.1.filter (fun u => u.id ≠ r.id))) ∈
        (broadcastUpdates players).2.2 ↔
      (broadcastUpdates players).2.1.filter (fun u => u.id ≠ r.id) ≠ [])) ∧
    (∀ em ∈ (broadcastUpdates players).2.2, ∃ r ∈ players,
      em = (r.id, ServerMsg.playersUpdate
        ((broadcastUpdates players).2.1.filter (fun u => u.id ≠ r.id)))) ∧
    ((broadcastUpdates players).2.1 = [] → (broadcastUpdates players).2.2 = []) := by
  unfold broadcastUpdates
  dsimp only
  refine ⟨?_, ?_, ?_, ?_, ?_⟩
  · apply List.map_congr_left
    intro p hp
    by_cases hb : p.needsBroadcast
    · rw [if_pos hb]
    · rw [if_neg hb]
      cases p
      simp_all
  · intro s hs
    induction players with
    | nil => simp at hs
    | cons q t ih =>
      rw [List.map_cons, List.nodup_cons] at hnd
      rw [List.mem_cons] at hs
      rw [List.filter_cons]
      by_cases hqb : q.needsBroadcast
      · rw [if_pos (by simpa using hqb), List.map_cons, List.filter_cons]
        rcases hs with hs | hs
        · subst hs
          rw [if_pos (by simp), if_pos hqb]
          have hnil : ((t.filter (fun p => p.needsBroadcast)).map (fun p =>
              ({ id := p.id, position := p.position, rotation := p.rotation,
                 animation := p.animation } : UpdateEntry))).filter
                (fun u => u.id = s.id) = [] := by
            rw [List.filter_eq_nil_iff]
            intro u hu hid
            rw [decide_eq_true_eq] at hid
            exact hnd.1 (hid ▸ ids_of_updates hu)
          rw [hnil]
        · have hqs : q.id ≠ s.id := by
            intro hcon
            exact hnd.1 (hcon ▸ List.mem_map_of_mem Player.id hs)
          rw [if_neg (by simpa using hqs)]
          exact ih hnd.2 hs
      · rw [if_neg (by simpa using hqb)]
        rcases hs with hs | hs
        · subst hs
          rw [if_neg hqb]
          rw [List.filter_eq_nil_iff]
          intro u hu hid
          rw [decide_eq_true_eq] at hid
          exact hnd.1 (hid ▸ ids_of_updates hu)
        · exact ih hnd.2 hs
  · intro r hr
    constructor
    · intro hmem
      split at hmem
      · rw [List.mem_filterMap] at hmem
        obtain ⟨q, hq, hgq⟩ := hmem
        split at hgq
        · injection hgq with hgq
          have := congrArg Prod.snd hgq
          simp only at this
          injection this with hlist
          rw [← hlist]
          rename_i hlen
          intro hcon
          rw [hcon] at hlen
          simp at hlen
        · cases hgq
      · simp at hmem
    · intro hne
      have hlen : 0 < ((players.filter (fun p => p.needsBroadcast)).map (fun p =>
          ({ id := p.id, position := p.position, rotation := p.rotation,
             animation := p.animation } : UpdateEntry))).length := by
        rcases List.exists_mem_of_ne_nil _ hne with ⟨u, hu⟩
        have := List.mem_filter.mp hu
        exact List.length_pos.mpr (fun hnil => by simp [hnil] at this)
      rw [if_pos hlen, List.mem_filterMap]
      refine ⟨r, hr, ?_⟩
      dsimp only
      rw [if_pos (by simpa [List.length_pos] using hne)]
  · intro em hem
    split at hem
    · rw [List.mem_filterMap] at hem
      obtain ⟨q, hq, hgq⟩ := hem
      split at hgq
      · injection hgq with hgq
        exact ⟨q, hq, hgq.symm⟩
      · cases hgq
    · simp at hem
  · intro hnil
    rw [hnil]
    simp

def c6player : Player :=
  { Player.new "a" "A" ⟨0, 0, 0⟩ with needsBroadcast := true }

/-- C6 counterexample: when the only dirty session is the sole member of
the partition, the batch is non-empty and yet no `players:update` message
at all is emitted — the recipient whose own-entry-filtered batch is empty
is skipped, contrary to the claim that every session receives the
own-entry-filtered batch whenever the batch is non-empty. -/
theorem broadcast_sole_dirty_gets_nothing :
    (broadcastUpdates [c6player]).2.1 ≠ [] ∧
    (broadcastUpdates [c6player]).2.2 = [] := by
  constructor
  · decide
  · decide

theorem broadcast_tick_batching_witness :
    (broadcastUpdates [c6player]).1 =
      [c6player].map (fun p => { p with needsBroadcast := false }) :=
  (broadcast_tick_batching [c6player] (by decide)).1

def c10gs1 : GameState :=
  (handlePlayerJoin initGameServer "sockA" "Alice" (some "U") "hawkins-1" ⟨0, 0, 0⟩).1

def c10gs2 : GameState :=
  (handlePlayerJoin c10gs1 "sockB" "Bob" (some "U") "hawkins-1" ⟨2, 0, 2⟩).1

def c10gs3 : GameState :=
  (handleDisconnect c10gs2 "sockA").1

/-- C10: a second join with the same uid overwrites the uid→socket entry
to the new socket; both sessions are then live; when the OLD session
disconnects, `handleDisconnect` deletes the uid entry unconditionally, so
the still-live new session loses its entry and a later join with that uid
is no longer recognized as a reconnection (the `uidToSocket.has(uid)`
guard of `handlePlayerJoin` is false). -/
theorem uid_mapping_stomped_by_old_disconnect :
    lookupA c10gs2.uidToSocket "U" = some "sockB" ∧
    (lookupA c10gs2.players "sockA").isSome = true ∧
    (lookupA c10gs2.players "sockB").isSome = true ∧
    GameState.isReconnection c10gs2 (some "U") = true ∧
    lookupA c10gs3.uidToSocket "U" = none ∧
    (lookupA c10gs3.players "sockB").isSome = true ∧
    GameState.isReconnection c10gs3 (some "U") = false := by
  refine ⟨rfl, rfl, rfl, rfl, rfl, rfl, rfl⟩

def c1gs1 : GameState :=
  (handlePlayerJoin initGameServer "sB" "Bea" none "hawkins-1" ⟨0, 0, 0⟩).1

def c1gs2 : GameState :=
  ((handleWorldChange c1gs1 "sB" "upsideDown").getD (c1gs1, [])).1

def c1gs3 : GameState :=
  (handlePlayerJoin c1gs2 "sA" "Ari" none "hawkins-1" ⟨2, 0, 2⟩).1

def c1gs4 : GameState :=
  (handleCharacterSelect c1gs3 "sA" "mike").1

/-- C1 exhibit: in a reachable scenario, session sB sits in the
"upsideDown" partition and session sA in "normal", yet sA's ready
promotion delivers a `player:spawned` event for sA to sB —
`handlePlayerReady` broadcasts via `socket.to(roomId)` to the whole room
instead of sA's world-state partition, although the source's own comment
says "Notify other players in same world state". -/
theorem ready_spawn_leaks_across_partitions :
    (lookupA c1gs4.players "sB").map Player.worldState = some "upsideDown" ∧
    (lookupA c1gs4.players "sA").map Player.worldState = some "normal" ∧
    ("sB", ServerMsg.playerSpawned
      { id := "sA", username := "Ari", position := ⟨2, 0, 2⟩, rotation := 0,
        worldState := "normal", animation := "idle", characterId := some "mike" }) ∈
      (handlePlayerReady c1gs4 "sA").2 := by
  refine ⟨rfl, rfl, ?_⟩
  decide
